import Mathlib

/-!
Verification of the goleveldb file-storage layer (`package storage`).

The development shallowly embeds the Go source: the pure file-name
namespace (`fsGenName`, `fsGenOldName`, `fsParseName` and the `fmt.Sscanf`
scanning semantics they rely on), a functional model of the directory as an
association list from file names to byte contents, and the storage
operations (`SetMeta`/`setMeta`, `GetMeta`, `List`, `Open`, `Create`,
`Remove`, `Rename`, `Lock`, `Log`, `Close`, plus `fileWrap.Close`) as
explicit state-passing functions.  Machine integers (`int64`) are modelled
as `Int` with explicit range checks exactly where the source performs them
(`strconv.ParseInt`, `fmt.Sscanf` with `%d`).
-/

namespace GoStorage

/-! ## Characters and decimal digits

Helpers for Go's `fmt` scanning and `strconv.ParseInt`.  `isGoSpace`
mirrors the `space` table of Go's `fmt/scan.go` (the Unicode white-space
ranges the scanner treats as separators). -/

def isGoSpace (c : Char) : Bool :=
  let n := c.toNat
  (9 ≤ n && n ≤ 13) || n == 32 || n == 0x85 || n == 0xA0 || n == 0x1680 ||
  (0x2000 ≤ n && n ≤ 0x200A) || n == 0x2028 || n == 0x2029 || n == 0x202F ||
  n == 0x205F || n == 0x3000

def isDigitChar (c : Char) : Bool :=
  48 ≤ c.toNat && c.toNat ≤ 57

/-- The decimal digit character for `d < 10` (as produced by Go's integer
formatting). -/
def digitChar (d : Nat) : Char :=
  match d with
  | 0 => '0' | 1 => '1' | 2 => '2' | 3 => '3' | 4 => '4'
  | 5 => '5' | 6 => '6' | 7 => '7' | 8 => '8' | _ => '9'

/-- Most-significant-first decimal digits of `n`, with explicit fuel so the
definition is structurally recursive (the fuel `n + 1` always suffices). -/
def natDigitsAux : Nat → Nat → List Char
  | 0, _ => []
  | fuel + 1, n => if n < 10 then [digitChar n] else natDigitsAux fuel (n / 10) ++ [digitChar (n % 10)]

def natDigits (n : Nat) : List Char := natDigitsAux (n + 1) n

/-- Numeric value of a most-significant-first digit-character list (how both
`fmt.Sscanf`'s `%d` and `strconv.ParseInt` accumulate the scanned token). -/
def charsVal (ds : List Char) : Nat :=
  ds.foldl (fun a c => a * 10 + (c.toNat - 48)) 0

/-! ## The Go `fmt.Sscanf` scanning primitives

`fsParseName` in the source calls `fmt.Sscanf(name, "%d.%s", ...)` and
`fmt.Sscanf(name, "MANIFEST-%d%s", ...)`.  The following functions model the
scanner (`fmt/scan.go`) for exactly these formats: each verb other than `%c`
first skips white space, where a newline (or a `\r\n` pair) is an error
because `Sscanf` sets `nlIsSpace = false`; `%d` accepts an optional sign and
a non-empty run of decimal digits whose value must fit a signed 64-bit
integer (`strconv.ParseInt(..., 10, 64)` inside `scanInt`); a literal format
character must match the input exactly; `%s` reads the maximal run of
non-space characters and fails on an empty token; trailing unscanned input
is ignored. -/

/-- Skip the scanner's white space; `none` models the "unexpected newline"
scan error (`ss.SkipSpace` with `nlIsSpace = false`; a `\r` directly before
a `\n` is skipped first, so `\r\n` also errors). -/
def skipSpaceNoNL : List Char → Option (List Char)
  | [] => some []
  | c :: rest =>
    if c = '\n' then none
    else if isGoSpace c then skipSpaceNoNL rest
    else some (c :: rest)

/-- Consume one optional sign character, returning (negative?, rest). -/
def scanSign (cs : List Char) : Bool × List Char :=
  match cs with
  | [] => (false, [])
  | c :: rest =>
    if c = '-' then (true, rest)
    else if c = '+' then (false, rest)
    else (false, cs)

/-- `%d` into an `int64`: skip space, optional sign, a non-empty digit run;
`strconv.ParseInt` range-checks the value against signed 64 bits. -/
def scanIntTok (cs : List Char) : Option (Int × List Char) :=
  match skipSpaceNoNL cs with
  | none => none
  | some cs1 =>
    let sgn := scanSign cs1
    let ds := sgn.2.takeWhile isDigitChar
    let rest := sgn.2.dropWhile isDigitChar
    if ds.isEmpty then none
    else
      let v : Int := (if sgn.1 then -1 else 1) * (charsVal ds : Int)
      if v < -(2 ^ 63) ∨ 2 ^ 63 - 1 < v then none else some (v, rest)

/-- A literal (non-space, non-verb) character of the format string must match
the next input character exactly. -/
def expectChar (c : Char) (cs : List Char) : Option (List Char) :=
  match cs with
  | [] => none
  | x :: rest => if x = c then some rest else none

/-- A literal run of format characters (used for `MANIFEST-`). -/
def expectPrefixChars : List Char → List Char → Option (List Char)
  | [], cs => some cs
  | _ :: _, [] => none
  | p :: ps, c :: cs => if c = p then expectPrefixChars ps cs else none

/-- `%s`: skip space, then the maximal non-empty run of non-space characters. -/
def scanStrTok (cs : List Char) : Option (String × List Char) :=
  match skipSpaceNoNL cs with
  | none => none
  | some cs1 =>
    let tok := cs1.takeWhile (fun c => !isGoSpace c)
    if tok.isEmpty then none
    else some (String.mk tok, cs1.dropWhile (fun c => !isGoSpace c))

/-- `fmt.Sscanf(name, "%d.%s", &fd.num, &tail)`: `err == nil` iff both verbs
scan, yielding the number and the tail token. -/
def sscanfNumDotStr (name : String) : Option (Int × String) :=
  match scanIntTok name.toList with
  | none => none
  | some (n, r1) =>
    match expectChar '.' r1 with
    | none => none
    | some r2 =>
      match scanStrTok r2 with
      | none => none
      | some (tok, _) => some (n, tok)

/-- `fmt.Sscanf(name, "MANIFEST-%d%s", &fd.num, &tail)` returns `n == 1`
exactly when the literal and `%d` scan but `%s` fails (end of input, possibly
after spaces, or a newline where a token was expected). -/
def sscanfManifest (name : String) : Option Int :=
  match expectPrefixChars "MANIFEST-".toList name.toList with
  | none => none
  | some r0 =>
    match scanIntTok r0 with
    | none => none
    | some (n, r1) =>
      match scanStrTok r1 with
      | some _ => none
      | none => some n

/-! ## File descriptors and the name namespace -/

/-- `FileType` is an `int` bit mask in the source (`TypeManifest = 1 << iota`). -/
def TypeManifest : Nat := 1
def TypeJournal : Nat := 2
def TypeTable : Nat := 4
def TypeTemp : Nat := 8
def TypeAll : Nat := 15

/-- `storage.FileDesc`: a typed file identifier.  `Num` is an `int64` in the
source; it is modelled as `Int`, with the 64-bit range enforced exactly where
the source enforces it (scanning). -/
structure FileDesc where
  ftype : Nat
  num : Int
deriving DecidableEq, Repr

/-- `storage.FileDescOk`. -/
def FileDescOk (fd : FileDesc) : Bool :=
  (fd.ftype == TypeManifest || fd.ftype == TypeJournal ||
   fd.ftype == TypeTable || fd.ftype == TypeTemp) && 0 ≤ fd.num

/-- Go's `%06d`: zero-pad the decimal form to width 6; for negative numbers
the sign counts toward the width. -/
def pad6 (n : Int) : String :=
  if n < 0 then
    String.mk ('-' :: List.replicate (5 - (natDigits n.natAbs).length) '0' ++ natDigits n.natAbs)
  else
    String.mk (List.replicate (6 - (natDigits n.natAbs).length) '0' ++ natDigits n.natAbs)

/-- Go's `%d` on an `int64` (used for the pending file name `CURRENT.<num>`). -/
def goIntStr (n : Int) : String :=
  if n < 0 then String.mk ('-' :: natDigits n.natAbs) else String.mk (natDigits n.natAbs)

/-- `fsGenName`.  The source panics on an invalid file type; that branch is
modelled by a marker string (it is unreachable for `FileDescOk` descriptors). -/
def fsGenName (fd : FileDesc) : String :=
  if fd.ftype = TypeManifest then "MANIFEST-" ++ pad6 fd.num
  else if fd.ftype = TypeJournal then pad6 fd.num ++ ".log"
  else if fd.ftype = TypeTable then pad6 fd.num ++ ".ldb"
  else if fd.ftype = TypeTemp then pad6 fd.num ++ ".tmp"
  else "invalid file type"

/-- `fsHasOldName`. -/
def fsHasOldName (fd : FileDesc) : Bool := fd.ftype == TypeTable

/-- `fsGenOldName`. -/
def fsGenOldName (fd : FileDesc) : String :=
  if fd.ftype = TypeTable then pad6 fd.num ++ ".sst" else fsGenName fd

/-- `fsParseName`.  On the first `Sscanf` succeeding with an unknown suffix the
source `return`s the named results as-is: `fd.num` was written by `Sscanf`,
`fd.ftype` is the zero `FileType`, and `ok` is `false` (no fallback to the
`MANIFEST` format in that case). -/
def fsParseName (name : String) : FileDesc × Bool :=
  match sscanfNumDotStr name with
  | some (n, tail) =>
    if tail = "log" then (⟨TypeJournal, n⟩, true)
    else if tail = "ldb" ∨ tail = "sst" then (⟨TypeTable, n⟩, true)
    else if tail = "tmp" then (⟨TypeTemp, n⟩, true)
    else (⟨0, n⟩, false)
  | none =>
    match sscanfManifest name with
    | some n => (⟨TypeManifest, n⟩, true)
    | none => (⟨0, 0⟩, false)

/-! ## The directory as a functional state

The directory is an association list from file names to byte contents
(contents as `String`).  `diskWrite` is `writeFileSynced` /
`os.OpenFile(..., O_WRONLY|O_CREATE|O_TRUNC, ...)`: create or truncate.
`diskRemove` and `diskRename` return `none` where the corresponding
`os.Remove` / `os.Rename` fails with a not-exist error.  Filesystem errors
other than not-exist (permission, I/O) are outside the model. -/

def Disk : Type := List (String × String)

def diskRead (d : Disk) (n : String) : Option String :=
  match List.find? (fun e => e.1 = n) d with
  | some e => some e.2
  | none => none

def diskStat (d : Disk) (n : String) : Bool :=
  (diskRead d n).isSome

def eraseName (d : Disk) (n : String) : Disk :=
  List.filter (fun e => e.1 ≠ n) d

def diskWrite (d : Disk) (n c : String) : Disk :=
  (n, c) :: eraseName d n

def diskRemove (d : Disk) (n : String) : Option Disk :=
  if diskStat d n then some (eraseName d n) else none

def diskRename (d : Disk) (o n : String) : Option Disk :=
  match diskRead d o with
  | none => none
  | some c => some (diskWrite (eraseName d o) n c)

def diskNames (d : Disk) : List String :=
  List.map (fun e => e.1) d

/-! ## The directory handle state

`fileStorage` fields that the modelled operations read or write: the
read-only flag, the open-handle count `open` (modelled as `openCnt`), the
instance lock `slock` (present or not), and the closed flags of the
`fileWrap` handles minted so far (`wraps`; index = order of creation).  The
`LOG` writer's bookkeeping (`logw`, `logSize`, `buf`, `day`) is kept
abstract: see `LogOp`. -/

structure FState where
  readOnly : Bool
  openCnt : Int
  slock : Bool
  wraps : List Bool
deriving DecidableEq, Repr

/-- The state `OpenFile` constructs (the open count starts at 0, no instance
lock, no file handles). -/
def initState (ro : Bool) : FState :=
  { readOnly := ro, openCnt := 0, slock := false, wraps := [] }

/-- `OpenFile`'s effect on the directory (for an existing directory):
`newFileLock` opens `<dir>/LOCK` and, when it does not exist, creates it
(mode 0644) — in read-only mode as well, because the `O_CREATE` retry does
not depend on `readonly`; a read-write open also creates `LOG` if absent
(`os.OpenFile(..., O_WRONLY|O_CREATE, 0644)`, no truncation). -/
def openFileStorage (ro : Bool) (d : Disk) : Disk × FState :=
  let d1 := if diskStat d "LOCK" then d else diskWrite d "LOCK" ""
  let d2 := if ro then d1 else if diskStat d1 "LOG" then d1 else diskWrite d1 "LOG" ""
  (d2, initState ro)

/-- The distinct error values of the source (`ErrInvalidFile`, `ErrLocked`,
`ErrClosed`, `errReadOnly`, `os.ErrNotExist`). -/
inductive Err where
  | invalidFile
  | locked
  | closed
  | readOnlyErr
  | notExist
deriving DecidableEq, Repr

/-! ## Operations -/

/-- `fileStorage.Lock`.  In read-only mode a no-op locker (`false`) is
returned; otherwise the instance lock is taken (`true`) unless already held. -/
def LockOp (st : FState) : FState × Except Err Bool :=
  if st.openCnt < 0 then (st, .error .closed)
  else if st.readOnly then (st, .ok false)
  else if st.slock then (st, .error .locked)
  else ({ st with slock := true }, .ok true)

/-- `fileStorageLock.Unlock`: clears the instance-lock slot if this handle
holds it (modelled for the real locker). -/
def UnlockOp (st : FState) : FState :=
  { st with slock := false }

/-- `fileStorage.Log`.  A no-op in read-only mode or after close.  Otherwise
`doLog` appends a formatted line to `LOG` (rotating at 1 MiB); the formatting,
day banner and rotation are abstracted: the line is taken as given and
appended, which is all the claims below depend on (none concerns the contents
of `LOG`). -/
def LogOp (st : FState) (d : Disk) (line : String) : Disk :=
  if st.readOnly then d
  else if st.openCnt < 0 then d
  else diskWrite d "LOG" ((diskRead d "LOG").getD "" ++ line ++ "\n")

/-- `fileStorage.setMeta` (the unexported publication step), returning the new
directory contents and the number of file writes (`writeFileSynced` calls)
performed.  If `CURRENT` already holds exactly `fsGenName fd ++ "\n"` it
returns success with no side effect; otherwise it writes
`CURRENT.<num>` synced and renames it over `CURRENT` (the rename source was
just written, so the rename cannot fail). -/
def setMetaWrite (d : Disk) (fd : FileDesc) : Disk × Nat :=
  ((diskRename (diskWrite d ("CURRENT." ++ goIntStr fd.num) (fsGenName fd ++ "\n"))
      ("CURRENT." ++ goIntStr fd.num) "CURRENT").getD
    (diskWrite d ("CURRENT." ++ goIntStr fd.num) (fsGenName fd ++ "\n")), 1)

def setMeta (d : Disk) (fd : FileDesc) : Disk × Nat :=
  match diskRead d "CURRENT" with
  | some b => if b = fsGenName fd ++ "\n" then (d, 0) else setMetaWrite d fd
  | none => setMetaWrite d fd

/-- `fileStorage.SetMeta`: the exported wrapper (argument check, read-only
check, closed check, then `setMeta`). -/
def SetMetaOp (st : FState) (d : Disk) (fd : FileDesc) : Disk × Nat × Except Err Unit :=
  if ¬FileDescOk fd then (d, 0, .error .invalidFile)
  else if st.readOnly then (d, 0, .error .readOnlyErr)
  else if st.openCnt < 0 then (d, 0, .error .closed)
  else
    let r := setMeta d fd
    (r.1, r.2, .ok ())

/-- `fileStorage.List`. -/
def ListOp (st : FState) (d : Disk) (ft : Nat) : Except Err (List FileDesc) :=
  if st.openCnt < 0 then .error .closed
  else
    .ok ((diskNames d).filterMap (fun name =>
      let r := fsParseName name
      if r.2 && (Nat.land r.1.ftype ft != 0) then some r.1 else none))

/-- `fileStorage.Open`: read-only open of the canonical name, falling back to
the legacy `.sst` name for tables; on success a `fileWrap` is minted and the
open count incremented.  The payload is the index of the new wrap. -/
def OpenOp (st : FState) (d : Disk) (fd : FileDesc) : FState × Except Err Nat :=
  if ¬FileDescOk fd then (st, .error .invalidFile)
  else if st.openCnt < 0 then (st, .error .closed)
  else if diskStat d (fsGenName fd) then
    ({ st with openCnt := st.openCnt + 1, wraps := st.wraps ++ [false] }, .ok st.wraps.length)
  else if fsHasOldName fd && diskStat d (fsGenOldName fd) then
    ({ st with openCnt := st.openCnt + 1, wraps := st.wraps ++ [false] }, .ok st.wraps.length)
  else (st, .error .notExist)

/-- `fileStorage.Create`: write-only create/truncate of the canonical name;
rejected in read-only mode; on success a `fileWrap` is minted. -/
def CreateOp (st : FState) (d : Disk) (fd : FileDesc) :
    FState × Disk × Except Err Nat :=
  if ¬FileDescOk fd then (st, d, .error .invalidFile)
  else if st.readOnly then (st, d, .error .readOnlyErr)
  else if st.openCnt < 0 then (st, d, .error .closed)
  else
    ({ st with openCnt := st.openCnt + 1, wraps := st.wraps ++ [false] },
     diskWrite d (fsGenName fd) "", .ok st.wraps.length)

/-- `fileWrap.Close`: fails if this wrap is already closed, otherwise marks it
closed and decrements the open count — with no check that the directory
handle is still live. -/
def WrapCloseOp (st : FState) (i : Nat) : FState × Except Err Unit :=
  match st.wraps.get? i with
  | some true => (st, .error .closed)
  | some false =>
    ({ st with openCnt := st.openCnt - 1, wraps := st.wraps.set i true }, .ok ())
  | none => (st, .error .closed)

/-- `fileStorage.Remove`.  NOTE: the source gates on `!fs.readOnly` — it
returns `errReadOnly` precisely when the handle is NOT read-only, and
proceeds on a read-only handle; this inverted condition is reproduced
faithfully.  `os.Remove` of the canonical name, with the legacy-name
fallback for tables (`e1` replaces `err` unless `e1` is also not-exist). -/
def RemoveOp (st : FState) (d : Disk) (fd : FileDesc) : Disk × Except Err Unit :=
  if ¬FileDescOk fd then (d, .error .invalidFile)
  else if ¬st.readOnly then (d, .error .readOnlyErr)
  else if st.openCnt < 0 then (d, .error .closed)
  else
    match diskRemove d (fsGenName fd) with
    | some d1 => (d1, .ok ())
    | none =>
      if fsHasOldName fd then
        match diskRemove d (fsGenOldName fd) with
        | some d1 => (d1, .ok ())
        | none => (d, .error .notExist)
      else (d, .error .notExist)

/-- `fileStorage.Rename`.  Equal descriptors are a no-op BEFORE the read-only
and closed checks; the read-only gate is inverted exactly as in `Remove`. -/
def RenameOp (st : FState) (d : Disk) (oldfd newfd : FileDesc) :
    Disk × Except Err Unit :=
  if ¬(FileDescOk oldfd && FileDescOk newfd) then (d, .error .invalidFile)
  else if oldfd = newfd then (d, .ok ())
  else if ¬st.readOnly then (d, .error .readOnlyErr)
  else if st.openCnt < 0 then (d, .error .closed)
  else
    match diskRename d (fsGenName oldfd) (fsGenName newfd) with
    | some d1 => (d1, .ok ())
    | none => (d, .error .notExist)

/-- `fileStorage.Close`: poisons the open count with the sentinel `-1`
(after warning if handles remain open) and releases the file lock. -/
def CloseOp (st : FState) : FState × Except Err Unit :=
  if st.openCnt < 0 then (st, .error .closed)
  else ({ st with openCnt := -1 }, .ok ())

/-! ## `GetMeta` -/

/-- The digits-to-value core of `strconv.ParseInt(s, 10, 64)`: a non-empty
all-digit token, negated by the sign, within signed 64 bits. -/
def parseIntCore (neg : Bool) (ds : List Char) : Option Int :=
  if ds.isEmpty then none
  else if ds.all isDigitChar then
    if (if neg then -1 else 1) * (charsVal ds : Int) < -(2 ^ 63) ∨
        2 ^ 63 - 1 < (if neg then -1 else 1) * (charsVal ds : Int) then none
    else some ((if neg then -1 else 1) * (charsVal ds : Int))
  else none

/-- `strconv.ParseInt(s, 10, 64)`: optional sign, a non-empty all-digit
remainder consumed entirely, value within signed 64 bits. -/
def parseIntGo (s : String) : Option Int :=
  parseIntCore (scanSign s.toList).1 (scanSign s.toList).2

/-- The pending-file scan of the directory listing:
`strings.HasPrefix(name, "CURRENT.") && name != "CURRENT.bak"` and the
numeric suffix `name[8:]` parses as an `int64`. -/
def pendingNum (name : String) : Option Int :=
  match expectPrefixChars "CURRENT.".toList name.toList with
  | none => none
  | some rest =>
    if name = "CURRENT.bak" then none else parseIntGo (String.mk rest)

/-- `sort.Sort(sort.Reverse(int64Slice(nums)))`: descending order. -/
def insertDesc (x : Int) : List Int → List Int
  | [] => [x]
  | y :: r => if y ≤ x then x :: y :: r else y :: insertDesc x r

def sortDesc (l : List Int) : List Int := l.foldr insertDesc []

/-- The two error outcomes a `tryCurrent` can produce in the model:
`os.ErrNotExist` and `&ErrCorrupted{...}`.  (Any other I/O error — e.g.
permission denied — makes `GetMeta` abort immediately in the source; the pure
disk model has no such errors.) -/
inductive TErr where
  | notExist
  | corrupted
deriving DecidableEq, Repr

/-- `tryCurrent(name)` inside `GetMeta`: read the file; absent is "missing";
the content must be non-empty, end in a newline and (without that newline)
parse to a descriptor, else "corrupted"; the referenced canonical file must
exist, else "missing". -/
def tryCurrent (d : Disk) (name : String) : Except TErr (String × FileDesc) :=
  match diskRead d name with
  | none => .error .notExist
  | some b =>
    match b.toList.getLast? with
    | none => .error .corrupted
    | some c =>
      if c = '\n' then
        let r := fsParseName (String.mk b.toList.dropLast)
        if r.2 then
          if diskStat d (fsGenName r.1) then .ok (name, r.1)
          else .error .notExist
        else .error .corrupted
      else .error .corrupted

/-- The loop of `tryCurrents`: first success wins; "missing" falls through;
"corrupted" is remembered (`lastCerr`) and the scan continues. -/
def tryCurrentsGo (d : Disk) : List String → Option TErr → Except TErr (String × FileDesc)
  | [], lastC => .error (lastC.getD .notExist)
  | n :: rest, lastC =>
    match tryCurrent d n with
    | .ok c => .ok c
    | .error .notExist => tryCurrentsGo d rest lastC
    | .error .corrupted => tryCurrentsGo d rest (some .corrupted)

def tryCurrents (d : Disk) (names : List String) : Except TErr (String × FileDesc) :=
  tryCurrentsGo d names none

/-- The two scans `GetMeta` performs, with the regenerated pending names:
the pending set (`CURRENT.<num>`, numeric suffixes sorted descending, names
rebuilt as `fmt.Sprintf("CURRENT.%d", num)`) and the canonical set
(`[CURRENT, CURRENT.bak]`).  When there are no pending entries the pending
scan is not run and its error stays the initial `os.ErrNotExist`. -/
def getMetaScan (d : Disk) :
    Except TErr (String × FileDesc) × Except TErr (String × FileDesc) × List String :=
  let nums := (diskNames d).filterMap pendingNum
  let pendNames :=
    if nums.isEmpty then []
    else (sortDesc nums).map (fun n => "CURRENT." ++ goIntStr n)
  let pend := if nums.isEmpty then .error .notExist else tryCurrents d pendNames
  let cano := tryCurrents d ["CURRENT", "CURRENT.bak"]
  (pend, cano, pendNames)

/-- The errors `GetMeta` can return in the model. -/
inductive GErr where
  | closed
  | notExist
  | corrupted
deriving DecidableEq, Repr

def terrToGErr : TErr → GErr
  | .notExist => .notExist
  | .corrupted => .corrupted

/-- The selection step of `GetMeta`: the pending candidate replaces the
canonical one iff it exists and the canonical one is absent or has a strictly
smaller number (`pendCur != nil && (curCur == nil || pendCur.fd.Num > curCur.fd.Num)`). -/
def getMetaWinner (pend cano : Except TErr (String × FileDesc)) :
    Option (String × FileDesc) :=
  match pend, cano with
  | .ok p, .ok c => if c.2.num < p.2.num then some p else some c
  | .ok p, .error _ => some p
  | .error _, .ok c => some c
  | .error _, .error _ => none

/-- The repair step of `GetMeta`: in read-write mode, when the winner was not
read from `CURRENT` itself or pending files exist, republish the winner via
`setMeta` and unlink every pending name (unlink errors merely logged). -/
def getMetaRepair (st : FState) (d : Disk) (w : String × FileDesc)
    (pendNames : List String) : Disk :=
  if !st.readOnly && (w.1 != "CURRENT" || !pendNames.isEmpty) then
    pendNames.foldl (fun dd n => (diskRemove dd n).getD dd) (setMeta d w.2).1
  else d

/-- The failure-surfacing step of `GetMeta`: a corrupted pending scan takes
precedence (`if isCorrupted(pendErr) { return pendErr }`), then the canonical
scan's error is returned. -/
def getMetaFail (pend cano : Except TErr (String × FileDesc)) : GErr :=
  match pend with
  | .error .corrupted => .corrupted
  | _ =>
    match cano with
    | .error e => terrToGErr e
    | .ok _ => .notExist

/-- The tail of `GetMeta` after the two scans. -/
def getMetaPost (st : FState) (d : Disk)
    (pend cano : Except TErr (String × FileDesc)) (pendNames : List String) :
    Disk × Except GErr FileDesc :=
  match getMetaWinner pend cano with
  | some w => (getMetaRepair st d w pendNames, .ok w.2)
  | none => (d, .error (getMetaFail pend cano))

/-- `fileStorage.GetMeta`. -/
def GetMetaOp (st : FState) (d : Disk) : Disk × Except GErr FileDesc :=
  if st.openCnt < 0 then (d, .error .closed)
  else getMetaPost st d (getMetaScan d).1 (getMetaScan d).2.1 (getMetaScan d).2.2

/-! ## Sequences of operations on one directory handle

A small trace semantics over the operations above, used for the lifecycle
invariants: the state threaded is the handle state together with the
directory contents; each step is one method call (results are discarded,
only the state effect is kept). -/

inductive SOp where
  | sLock
  | sUnlock
  | sLog (line : String)
  | sSetMeta (fd : FileDesc)
  | sGetMeta
  | sList (ft : Nat)
  | sOpen (fd : FileDesc)
  | sCreate (fd : FileDesc)
  | sRemove (fd : FileDesc)
  | sRename (oldfd newfd : FileDesc)
  | sClose
  | sWrapClose (i : Nat)
deriving DecidableEq, Repr

def stepOp (sd : FState × Disk) : SOp → FState × Disk
  | .sLock => ((LockOp sd.1).1, sd.2)
  | .sUnlock => (UnlockOp sd.1, sd.2)
  | .sLog line => (sd.1, LogOp sd.1 sd.2 line)
  | .sSetMeta fd => (sd.1, (SetMetaOp sd.1 sd.2 fd).1)
  | .sGetMeta => (sd.1, (GetMetaOp sd.1 sd.2).1)
  | .sList _ => (sd.1, sd.2)
  | .sOpen fd => ((OpenOp sd.1 sd.2 fd).1, sd.2)
  | .sCreate fd =>
    let r := CreateOp sd.1 sd.2 fd
    (r.1, r.2.1)
  | .sRemove fd => (sd.1, (RemoveOp sd.1 sd.2 fd).1)
  | .sRename o n => (sd.1, (RenameOp sd.1 sd.2 o n).1)
  | .sClose => ((CloseOp sd.1).1, sd.2)
  | .sWrapClose i => ((WrapCloseOp sd.1 i).1, sd.2)

def runOps (st : FState) (d : Disk) (ops : List SOp) : FState × Disk :=
  ops.foldl stepOp (st, d)

/-- The number of live (not yet closed) file handles. -/
def liveWraps (st : FState) : Nat :=
  (st.wraps.filter (fun b => !b)).length

/-! ## Lemmas: strings, digits and scanning -/

theorem toList_append (a b : String) : (a ++ b).toList = a.toList ++ b.toList := by
  cases a
  cases b
  rfl

theorem digitChar_toNat {d : Nat} (h : d < 10) : (digitChar d).toNat = 48 + d := by
  interval_cases d <;> rfl

theorem isDigitChar_digitChar {d : Nat} (h : d < 10) : isDigitChar (digitChar d) = true := by
  interval_cases d <;> rfl

theorem charsVal_append_singleton (l : List Char) (c : Char) :
    charsVal (l ++ [c]) = charsVal l * 10 + (c.toNat - 48) := by
  unfold charsVal
  rw [List.foldl_append]
  rfl

theorem natDigitsAux_eq (fuel : Nat) :
    ∀ n, n < fuel → charsVal (natDigitsAux fuel n) = n ∧
      (∀ c ∈ natDigitsAux fuel n, isDigitChar c = true) ∧ natDigitsAux fuel n ≠ [] := by
  induction fuel with
  | zero => intro n h; omega
  | succ fuel ih =>
    intro n h
    unfold natDigitsAux
    by_cases hn : n < 10
    · rw [if_pos hn]
      refine ⟨?_, ?_, by simp⟩
      · show charsVal ([] ++ [digitChar n]) = n
        rw [charsVal_append_singleton, digitChar_toNat hn]
        simp [charsVal]
      · intro c hc
        simp only [List.mem_singleton] at hc
        subst hc
        exact isDigitChar_digitChar hn
    · rw [if_neg hn]
      have hdiv : n / 10 < fuel := by
        have h1 : n / 10 < n := Nat.div_lt_self (by omega) (by omega)
        omega
      obtain ⟨ih1, ih2, ih3⟩ := ih (n / 10) hdiv
      refine ⟨?_, ?_, by simp⟩
      · rw [charsVal_append_singleton, ih1, digitChar_toNat (Nat.mod_lt n (by omega))]
        omega
      · intro c hc
        rcases List.mem_append.mp hc with hc | hc
        · exact ih2 c hc
        · simp only [List.mem_singleton] at hc
          subst hc
          exact isDigitChar_digitChar (Nat.mod_lt n (by omega))

theorem natDigits_val (n : Nat) : charsVal (natDigits n) = n :=
  (natDigitsAux_eq (n + 1) n (by omega)).1

theorem natDigits_digits (n : Nat) : ∀ c ∈ natDigits n, isDigitChar c = true :=
  (natDigitsAux_eq (n + 1) n (by omega)).2.1

theorem natDigits_ne_nil (n : Nat) : natDigits n ≠ [] :=
  (natDigitsAux_eq (n + 1) n (by omega)).2.2

theorem charsVal_replicate_zero (k : Nat) (ds : List Char) :
    charsVal (List.replicate k '0' ++ ds) = charsVal ds := by
  induction k with
  | zero => rfl
  | succ k ih =>
    show charsVal ('0' :: (List.replicate k '0' ++ ds)) = charsVal ds
    unfold charsVal at ih ⊢
    simpa using ih

theorem takeWhile_append_stop {p : Char → Bool} {l r : List Char}
    (hl : ∀ c ∈ l, p c = true) (hr : ∀ x rest, r = x :: rest → p x = false) :
    (l ++ r).takeWhile p = l ∧ (l ++ r).dropWhile p = r := by
  induction l with
  | nil =>
    cases r with
    | nil => exact ⟨rfl, rfl⟩
    | cons x rest =>
      have hx := hr x rest rfl
      simp [List.takeWhile_cons, List.dropWhile_cons, hx]
  | cons a l ih =>
    have pa := hl a (by simp)
    have ih' := ih (fun c hc => hl c (by simp [hc]))
    simp [List.takeWhile_cons, List.dropWhile_cons, pa, ih'.1, ih'.2]

theorem isGoSpace_false_of_digit {c : Char} (h : isDigitChar c = true) :
    isGoSpace c = false := by
  unfold isDigitChar at h
  unfold isGoSpace
  simp only [Bool.and_eq_true, decide_eq_true_eq] at h
  simp only [Bool.or_eq_false_iff, Bool.and_eq_false_iff, beq_eq_false_iff_ne, ne_eq,
    decide_eq_false_iff_not, not_le]
  omega

theorem ne_sign_of_digit {c : Char} (h : isDigitChar c = true) : c ≠ '-' ∧ c ≠ '+' := by
  constructor <;> (rintro rfl; exact absurd h (by decide))

theorem skipSpaceNoNL_cons {c : Char} {cs : List Char} (h : isGoSpace c = false) :
    skipSpaceNoNL (c :: cs) = some (c :: cs) := by
  have hne : c ≠ '\n' := by rintro rfl; exact absurd h (by decide)
  unfold skipSpaceNoNL
  simp [hne, h]

theorem scanSign_nosign {c : Char} {cs : List Char} (h1 : c ≠ '-') (h2 : c ≠ '+') :
    scanSign (c :: cs) = (false, c :: cs) := by
  simp [scanSign, h1, h2]

theorem expectPrefixChars_append (p r : List Char) :
    expectPrefixChars p (p ++ r) = some r := by
  induction p with
  | nil => rfl
  | cons c cs ih => simp [expectPrefixChars, ih]

/-! ## Lemmas: scanning the generated names back -/

/-- The character list of `pad6 n` for non-negative `n`. -/
def padL (m : Nat) : List Char :=
  List.replicate (6 - (natDigits m).length) '0' ++ natDigits m

theorem pad6_nonneg {n : Int} (h : 0 ≤ n) : pad6 n = String.mk (padL n.natAbs) := by
  unfold pad6 padL
  rw [if_neg (by omega)]

theorem padL_digits (m : Nat) : ∀ c ∈ padL m, isDigitChar c = true := by
  intro c hc
  rcases List.mem_append.mp hc with hc | hc
  · rw [List.eq_of_mem_replicate hc]
    rfl
  · exact natDigits_digits m c hc

theorem padL_ne_nil (m : Nat) : padL m ≠ [] := by
  unfold padL
  simp [natDigits_ne_nil m]

theorem charsVal_padL (m : Nat) : charsVal (padL m) = m := by
  unfold padL
  rw [charsVal_replicate_zero, natDigits_val]

theorem scanIntTok_padL (m : Nat) (hm : (m : Int) ≤ 2 ^ 63 - 1) (r : List Char)
    (hr : ∀ x rest, r = x :: rest → isDigitChar x = false) :
    scanIntTok (padL m ++ r) = some ((m : Int), r) := by
  obtain ⟨c, cs, hc⟩ := List.exists_cons_of_ne_nil (padL_ne_nil m)
  have hcd : isDigitChar c = true := padL_digits m c (by rw [hc]; simp)
  have hspace := isGoSpace_false_of_digit hcd
  have hsgn := ne_sign_of_digit hcd
  have htk := takeWhile_append_stop (p := isDigitChar) (padL_digits m) hr
  have h1 : skipSpaceNoNL (padL m ++ r) = some (padL m ++ r) := by
    rw [hc, List.cons_append]
    exact skipSpaceNoNL_cons hspace
  have h2 : scanSign (padL m ++ r) = (false, padL m ++ r) := by
    rw [hc, List.cons_append]
    exact scanSign_nosign hsgn.1 hsgn.2
  have hne : (padL m).isEmpty = false := by
    rw [hc]
    rfl
  unfold scanIntTok
  rw [h1]
  simp only [h2, htk.1, htk.2, hne, Bool.false_eq_true, if_false]
  rw [if_neg]
  · simp [charsVal_padL]
  · rw [charsVal_padL]
    omega

theorem scanIntTok_nondigit_head {c : Char} {cs : List Char} (hns : isGoSpace c = false)
    (hd : isDigitChar c = false) (h1 : c ≠ '-') (h2 : c ≠ '+') :
    scanIntTok (c :: cs) = none := by
  unfold scanIntTok
  rw [skipSpaceNoNL_cons hns]
  simp [scanSign_nosign h1 h2, List.takeWhile_cons, hd]

theorem scanStrTok_token (tl : List Char) (h1 : tl ≠ [])
    (h2 : ∀ c ∈ tl, isGoSpace c = false) :
    scanStrTok tl = some (String.mk tl, []) := by
  obtain ⟨c, cs, hc⟩ := List.exists_cons_of_ne_nil h1
  have htk := takeWhile_append_stop (p := fun c => !isGoSpace c)
    (l := tl) (r := []) (by intro c hc2; simp [h2 c hc2]) (by intro x rest hx; cases hx)
  rw [List.append_nil] at htk
  unfold scanStrTok
  rw [hc, skipSpaceNoNL_cons (h2 c (by rw [hc]; simp)), ← hc]
  simp only [htk.1, htk.2]
  rw [if_neg]
  rw [hc]
  simp

theorem sscanfNumDotStr_pad (n : Int) (h0 : 0 ≤ n) (hm : n ≤ 2 ^ 63 - 1) (tl : List Char)
    (h1 : tl ≠ []) (h2 : ∀ c ∈ tl, isGoSpace c = false) :
    sscanfNumDotStr (pad6 n ++ String.mk ('.' :: tl)) = some (n, String.mk tl) := by
  have habs : ((n.natAbs : Nat) : Int) = n := Int.natAbs_of_nonneg h0
  have hsc := scanIntTok_padL n.natAbs (by omega) ('.' :: tl)
    (by intro x rest he; injection he with he1 _; rw [← he1]; rfl)
  unfold sscanfNumDotStr
  rw [toList_append, pad6_nonneg h0]
  show (match scanIntTok (padL n.natAbs ++ '.' :: tl) with
    | none => none
    | some (n, r1) =>
      match expectChar '.' r1 with
      | none => none
      | some r2 =>
        match scanStrTok r2 with
        | none => none
        | some (tok, _) => some (n, tok)) = some (n, String.mk tl)
  rw [hsc]
  show (match expectChar '.' ('.' :: tl) with
    | none => none
    | some r2 =>
      match scanStrTok r2 with
      | none => none
      | some (tok, _) => some ((n.natAbs : Int), tok)) = some (n, String.mk tl)
  have hdot : expectChar '.' ('.' :: tl) = some tl := by simp [expectChar]
  rw [hdot]
  show (match scanStrTok tl with
    | none => none
    | some (tok, _) => some ((n.natAbs : Int), tok)) = some (n, String.mk tl)
  rw [scanStrTok_token tl h1 h2, habs]

theorem sscanfNumDotStr_none_of_scanInt {s : String} (h : scanIntTok s.toList = none) :
    sscanfNumDotStr s = none := by
  unfold sscanfNumDotStr
  rw [h]

theorem sscanfManifest_pad (n : Int) (h0 : 0 ≤ n) (hm : n ≤ 2 ^ 63 - 1) :
    sscanfManifest ("MANIFEST-" ++ pad6 n) = some n := by
  unfold sscanfManifest
  rw [toList_append, pad6_nonneg h0]
  rw [show (String.mk (padL n.natAbs)).toList = padL n.natAbs from rfl]
  rw [expectPrefixChars_append]
  have hsc : scanIntTok (padL n.natAbs) = some ((n.natAbs : Int), []) := by
    have h2 := scanIntTok_padL n.natAbs (by omega) [] (by intro x rest hx; cases hx)
    rwa [List.append_nil] at h2
  show (match scanIntTok (padL n.natAbs) with
    | none => none
    | some (n, r1) =>
      match scanStrTok r1 with
      | some _ => none
      | none => some n) = some n
  rw [hsc]
  show (match scanStrTok [] with
    | some _ => none
    | none => some ((n.natAbs : Int))) = some n
  rw [show scanStrTok [] = none from rfl, Int.natAbs_of_nonneg h0]

theorem fsParseName_manifest (n : Int) (h0 : 0 ≤ n) (hm : n ≤ 2 ^ 63 - 1) :
    fsParseName ("MANIFEST-" ++ pad6 n) = (⟨TypeManifest, n⟩, true) := by
  have hfail : sscanfNumDotStr ("MANIFEST-" ++ pad6 n) = none := by
    apply sscanfNumDotStr_none_of_scanInt
    rw [toList_append]
    rw [show ("MANIFEST-" : String).toList = 'M' :: "ANIFEST-".toList from rfl, List.cons_append]
    exact scanIntTok_nondigit_head (by decide) (by decide) (by decide) (by decide)
  unfold fsParseName
  rw [hfail, sscanfManifest_pad n h0 hm]

theorem fsParseName_dotform (n : Int) (h0 : 0 ≤ n) (hm : n ≤ 2 ^ 63 - 1)
    (tl : List Char) (h1 : tl ≠ []) (h2 : ∀ c ∈ tl, isGoSpace c = false) :
    fsParseName (pad6 n ++ String.mk ('.' :: tl)) =
      (if String.mk tl = "log" then (⟨TypeJournal, n⟩, true)
       else if String.mk tl = "ldb" ∨ String.mk tl = "sst" then (⟨TypeTable, n⟩, true)
       else if String.mk tl = "tmp" then (⟨TypeTemp, n⟩, true)
       else (⟨0, n⟩, false)) := by
  unfold fsParseName
  rw [sscanfNumDotStr_pad n h0 hm tl h1 h2]

theorem fsParseName_fsGenName {fd : FileDesc} (h : FileDescOk fd = true)
    (h63 : fd.num ≤ 2 ^ 63 - 1) : fsParseName (fsGenName fd) = (fd, true) := by
  obtain ⟨t, n⟩ := fd
  unfold FileDescOk at h
  simp only [Bool.and_eq_true, Bool.or_eq_true, beq_iff_eq, decide_eq_true_eq] at h
  obtain ⟨ht, hn⟩ := h
  rcases ht with ((rfl | rfl) | rfl) | rfl
  · rw [show fsGenName ⟨TypeManifest, n⟩ = "MANIFEST-" ++ pad6 n from rfl]
    exact fsParseName_manifest n hn h63
  · rw [show fsGenName ⟨TypeJournal, n⟩ = pad6 n ++ ".log" from rfl]
    rw [show (".log" : String) = String.mk ('.' :: ['l', 'o', 'g']) from rfl]
    rw [fsParseName_dotform n hn h63 ['l', 'o', 'g'] (by simp) (by decide)]
    rw [if_pos rfl]
  · rw [show fsGenName ⟨TypeTable, n⟩ = pad6 n ++ ".ldb" from rfl]
    rw [show (".ldb" : String) = String.mk ('.' :: ['l', 'd', 'b']) from rfl]
    rw [fsParseName_dotform n hn h63 ['l', 'd', 'b'] (by simp) (by decide)]
    rw [if_neg (by decide), if_pos (Or.inl rfl)]
  · rw [show fsGenName ⟨TypeTemp, n⟩ = pad6 n ++ ".tmp" from rfl]
    rw [show (".tmp" : String) = String.mk ('.' :: ['t', 'm', 'p']) from rfl]
    rw [fsParseName_dotform n hn h63 ['t', 'm', 'p'] (by simp) (by decide)]
    rw [if_neg (by decide), if_neg (by decide), if_pos rfl]

theorem fsParseName_fsGenOldName {fd : FileDesc} (h : fd.ftype = TypeTable)
    (hn : 0 ≤ fd.num) (h63 : fd.num ≤ 2 ^ 63 - 1) :
    fsParseName (fsGenOldName fd) = (fd, true) := by
  obtain ⟨t, n⟩ := fd
  simp only at h
  subst h
  rw [show fsGenOldName ⟨TypeTable, n⟩ = pad6 n ++ ".sst" from rfl]
  rw [show (".sst" : String) = String.mk ('.' :: ['s', 's', 't']) from rfl]
  rw [fsParseName_dotform n hn h63 ['s', 's', 't'] (by simp) (by decide)]
  rw [if_neg (by decide), if_pos (Or.inr rfl)]

/-! ## Lemmas: the disk and `setMeta` -/

theorem diskRead_write_self (d : Disk) (n c : String) :
    diskRead (diskWrite d n c) n = some c := by
  unfold diskRead diskWrite
  rw [List.find?_cons_of_pos _ (by simp)]

/-- After the write-and-rename path of `setMeta`, `CURRENT` holds the content. -/
theorem setMetaWrite_current (d : Disk) (fd : FileDesc) :
    diskRead (setMetaWrite d fd).1 "CURRENT" = some (fsGenName fd ++ "\n") := by
  unfold setMetaWrite diskRename
  rw [diskRead_write_self]
  show diskRead (diskWrite _ "CURRENT" (fsGenName fd ++ "\n")) "CURRENT"
    = some (fsGenName fd ++ "\n")
  exact diskRead_write_self _ _ _

/-- `setMeta` case-split helper: the value of `setMeta` as a function of the
current `CURRENT` content. -/
theorem setMeta_eq_of_read (d : Disk) (fd : FileDesc) {b : String}
    (hcur : diskRead d "CURRENT" = some b) :
    setMeta d fd = if b = fsGenName fd ++ "\n" then (d, 0) else setMetaWrite d fd := by
  unfold setMeta
  rw [hcur]

theorem setMeta_eq_of_read_none (d : Disk) (fd : FileDesc)
    (hcur : diskRead d "CURRENT" = none) : setMeta d fd = setMetaWrite d fd := by
  unfold setMeta
  rw [hcur]

/-- After any `setMeta`, `CURRENT` holds exactly the canonical name + newline. -/
theorem setMeta_current (d : Disk) (fd : FileDesc) :
    diskRead (setMeta d fd).1 "CURRENT" = some (fsGenName fd ++ "\n") := by
  cases hcur : diskRead d "CURRENT" with
  | none =>
    rw [setMeta_eq_of_read_none d fd hcur]
    exact setMetaWrite_current d fd
  | some b =>
    rw [setMeta_eq_of_read d fd hcur]
    by_cases hb : b = fsGenName fd ++ "\n"
    · rw [if_pos hb]
      rw [hcur, hb]
    · rw [if_neg hb]
      exact setMetaWrite_current d fd

/-- If `CURRENT` already equals the content, `setMeta` is a no-op with zero writes. -/
theorem setMeta_noop (d : Disk) (fd : FileDesc)
    (h : diskRead d "CURRENT" = some (fsGenName fd ++ "\n")) :
    setMeta d fd = (d, 0) := by
  rw [setMeta_eq_of_read d fd h, if_pos rfl]

/-- If `CURRENT` does not already equal the content, `setMeta` performs
exactly one file write. -/
theorem setMeta_one_write (d : Disk) (fd : FileDesc)
    (h : diskRead d "CURRENT" ≠ some (fsGenName fd ++ "\n")) :
    (setMeta d fd).2 = 1 := by
  cases hcur : diskRead d "CURRENT" with
  | none =>
    rw [setMeta_eq_of_read_none d fd hcur]
    rfl
  | some b =>
    rw [setMeta_eq_of_read d fd hcur, if_neg (fun hb => h (by rw [hcur, hb]))]
    rfl

/-! ## Claims -/

/-- C5: Name round-trip: for every valid identifier `fd` (kind among the four
kinds, number ≥ 0 — and representable in the source's `int64`), parsing the
canonical name generated for `fd` yields `fd` with the validity flag true,
and for every valid Table identifier parsing the legacy `.sst` name also
yields `fd`. -/
theorem c5_name_roundtrip (fd : FileDesc) (h : FileDescOk fd = true)
    (h63 : fd.num ≤ 2 ^ 63 - 1) :
    fsParseName (fsGenName fd) = (fd, true) ∧
      (fd.ftype = TypeTable → fsParseName (fsGenOldName fd) = (fd, true)) := by
  refine ⟨fsParseName_fsGenName h h63, fun ht => ?_⟩
  have hn : 0 ≤ fd.num := by
    unfold FileDescOk at h
    simp only [Bool.and_eq_true, decide_eq_true_eq] at h
    exact h.2
  exact fsParseName_fsGenOldName ht hn h63

theorem c5_name_roundtrip_witness :
    FileDescOk ⟨TypeTable, 3⟩ = true ∧
      fsParseName (fsGenName ⟨TypeTable, 3⟩) = (⟨TypeTable, 3⟩, true) ∧
      fsParseName (fsGenOldName ⟨TypeTable, 3⟩) = (⟨TypeTable, 3⟩, true) :=
  ⟨by decide,
   (c5_name_roundtrip ⟨TypeTable, 3⟩ (by decide) (by decide)).1,
   (c5_name_roundtrip ⟨TypeTable, 3⟩ (by decide) (by decide)).2 rfl⟩

/-- C2: the source's read-only gates in `Remove` and `Rename` are inverted
(`if !fs.readOnly { return errReadOnly }`): on a READ-WRITE handle both
operations return the read-only error and touch nothing, while on a
READ-ONLY handle both proceed and mutate the directory — the opposite of
the specified behavior. -/
theorem c2_remove_rename_gate_inverted :
    RemoveOp (initState false) [("000001.log", "x")] ⟨TypeJournal, 1⟩
        = ([("000001.log", "x")], .error .readOnlyErr) ∧
      (RenameOp (initState false) [("000001.log", "x")] ⟨TypeJournal, 1⟩ ⟨TypeJournal, 2⟩
        = ([("000001.log", "x")], .error .readOnlyErr)) ∧
      RemoveOp (initState true) [("000001.log", "x")] ⟨TypeJournal, 1⟩ = ([], .ok ()) ∧
      RenameOp (initState true) [("000001.log", "x")] ⟨TypeJournal, 1⟩ ⟨TypeJournal, 2⟩
        = ([("000002.log", "x")], .ok ()) :=
  ⟨rfl, rfl, rfl, rfl⟩

/-- C3 counterexample: after a successful `Close`, `Rename` with
`old == new` (valid identifiers) returns success, not the closed error —
the equal-descriptor no-op precedes the closed check. -/
theorem c3_counterexample_rename_after_close :
    (CloseOp (initState false)).2 = .ok () ∧
      RenameOp (CloseOp (initState false)).1 [] ⟨TypeJournal, 1⟩ ⟨TypeJournal, 1⟩
        = ([], .ok ()) :=
  ⟨rfl, rfl⟩

/-- C3 (amended): after `Close` succeeds (`openCnt < 0`), `Lock`, `GetMeta`,
`List` and `Close` return the closed error unconditionally; `Open` returns it
for every valid identifier; `SetMeta` and `Create` return it for valid
identifiers on a read-write handle (a read-only handle returns the read-only
error first); `Remove` and `Rename` return it for valid identifiers on a
read-only handle (their inverted gate returns the read-only error first on a
read-write handle), with `Rename` additionally requiring `old ≠ new` because
equal descriptors return success even after close; invalid identifiers
return the invalid-file error even after close. -/
theorem c3_closed_handle_ops (st : FState) (d : Disk) (fd oldfd newfd : FileDesc)
    (ft : Nat) (line : String) (h : st.openCnt < 0) :
    (LockOp st).2 = .error .closed ∧
    (GetMetaOp st d).2 = .error .closed ∧
    ListOp st d ft = .error .closed ∧
    (CloseOp st).2 = .error .closed ∧
    (FileDescOk fd = true → (OpenOp st d fd).2 = .error .closed) ∧
    (FileDescOk fd = true → st.readOnly = false → (SetMetaOp st d fd).2.2 = .error .closed) ∧
    (FileDescOk fd = true → st.readOnly = false → (CreateOp st d fd).2.2 = .error .closed) ∧
    (FileDescOk fd = true → st.readOnly = true → (RemoveOp st d fd).2 = .error .closed) ∧
    (FileDescOk oldfd = true → FileDescOk newfd = true → oldfd ≠ newfd →
      st.readOnly = true → (RenameOp st d oldfd newfd).2 = .error .closed) ∧
    (FileDescOk oldfd = true → FileDescOk newfd = true → oldfd = newfd →
      (RenameOp st d oldfd newfd).2 = .ok ()) ∧
    (FileDescOk fd = true → st.readOnly = true → (SetMetaOp st d fd).2.2 = .error .readOnlyErr) ∧
    (FileDescOk fd = true → st.readOnly = false → (RemoveOp st d fd).2 = .error .readOnlyErr) ∧
    (FileDescOk fd = false → (OpenOp st d fd).2 = .error .invalidFile) ∧
    LogOp st d line = d := by
  refine ⟨?_, ?_, ?_, ?_, ?_, ?_, ?_, ?_, ?_, ?_, ?_, ?_, ?_, ?_⟩
  · unfold LockOp
    rw [if_pos h]
  · unfold GetMetaOp
    rw [if_pos h]
  · unfold ListOp
    rw [if_pos h]
  · unfold CloseOp
    rw [if_pos h]
  · intro hfd
    unfold OpenOp
    rw [if_neg (by simp [hfd]), if_pos h]
  · intro hfd hro
    unfold SetMetaOp
    rw [if_neg (by simp [hfd]), if_neg (by simp [hro]), if_pos h]
  · intro hfd hro
    unfold CreateOp
    rw [if_neg (by simp [hfd]), if_neg (by simp [hro]), if_pos h]
  · intro hfd hro
    unfold RemoveOp
    rw [if_neg (by simp [hfd]), if_neg (by simp [hro]), if_pos h]
  · intro h1 h2 hne hro
    unfold RenameOp
    rw [if_neg (by simp [h1, h2]), if_neg hne, if_neg (by simp [hro]), if_pos h]
  · intro h1 h2 heq
    unfold RenameOp
    rw [if_neg (by simp [h1, h2]), if_pos heq]
  · intro hfd hro
    unfold SetMetaOp
    rw [if_neg (by simp [hfd]), if_pos (by simp [hro])]
  · intro hfd hro
    unfold RemoveOp
    rw [if_neg (by simp [hfd]), if_pos (by simp [hro])]
  · intro hfd
    unfold OpenOp
    rw [if_pos (by simp [hfd])]
  · unfold LogOp
    rcases hro : st.readOnly with _ | _
    · rw [if_neg (by simp), if_pos h]
    · rw [if_pos rfl]

theorem c3_closed_handle_ops_witness :
    ((CloseOp (initState false)).1.openCnt < 0) ∧
      (LockOp (CloseOp (initState false)).1).2 = .error .closed ∧
      (OpenOp (CloseOp (initState false)).1 [] ⟨TypeJournal, 1⟩).2 = .error .closed := by
  have h := c3_closed_handle_ops (CloseOp (initState false)).1 [] ⟨TypeJournal, 1⟩
    ⟨TypeJournal, 1⟩ ⟨TypeJournal, 2⟩ TypeAll "x" (by decide)
  exact ⟨by decide, h.1, h.2.2.2.2.1 (by decide)⟩

/-- C4: `SetMeta` is idempotent at the file level: if `CURRENT` already holds
the canonical name of `fd` followed by a newline, `SetMeta` succeeds with no
disk change and zero file writes; two consecutive `SetMeta fd` calls both
succeed, the second one changes nothing and performs zero writes, and the
first performs exactly one file write whenever `CURRENT` did not already hold
the content. -/
theorem c4_setMeta_idempotent (st : FState) (d : Disk) (fd : FileDesc)
    (hro : st.readOnly = false) (hopen : 0 ≤ st.openCnt) (hfd : FileDescOk fd = true) :
    (diskRead d "CURRENT" = some (fsGenName fd ++ "\n") →
      SetMetaOp st d fd = (d, 0, .ok ())) ∧
    (SetMetaOp st d fd).2.2 = .ok () ∧
    SetMetaOp st (SetMetaOp st d fd).1 fd = ((SetMetaOp st d fd).1, 0, .ok ()) ∧
    (diskRead d "CURRENT" ≠ some (fsGenName fd ++ "\n") → (SetMetaOp st d fd).2.1 = 1) := by
  have hred : ∀ dd : Disk, SetMetaOp st dd fd = ((setMeta dd fd).1, (setMeta dd fd).2, .ok ()) := by
    intro dd
    unfold SetMetaOp
    rw [if_neg (by simp [hfd]), if_neg (by simp [hro]), if_neg (by omega)]
  refine ⟨?_, ?_, ?_, ?_⟩
  · intro hcur
    rw [hred, setMeta_noop d fd hcur]
  · rw [hred]
  · rw [hred d, hred (setMeta d fd).1]
    rw [setMeta_noop _ fd (setMeta_current d fd)]
  · intro hcur
    rw [hred]
    exact setMeta_one_write d fd hcur

theorem c4_setMeta_idempotent_witness :
    SetMetaOp (initState false) [("CURRENT", "000005.log\n")] ⟨TypeJournal, 5⟩
        = ([("CURRENT", "000005.log\n")], 0, .ok ()) ∧
      (SetMetaOp (initState false) [] ⟨TypeJournal, 5⟩).2.1 = 1 := by
  have h1 := c4_setMeta_idempotent (initState false) [("CURRENT", "000005.log\n")]
    ⟨TypeJournal, 5⟩ rfl (by decide) (by decide)
  have h2 := c4_setMeta_idempotent (initState false) [] ⟨TypeJournal, 5⟩ rfl
    (by decide) (by decide)
  exact ⟨h1.1 rfl, h2.2.2.2 (by simp [diskRead])⟩

/-- C10: `SetMeta` does not restrict the identifier's kind to Manifest: for
every valid identifier of any of the four kinds, a read-write `SetMeta` on a
live handle succeeds (in particular it does not return the invalid-file
error), and afterwards `CURRENT` contains that identifier's canonical name
followed by a newline. -/
theorem c10_setMeta_any_kind (st : FState) (d : Disk) (fd : FileDesc)
    (hfd : FileDescOk fd = true) (hro : st.readOnly = false) (hopen : 0 ≤ st.openCnt) :
    (SetMetaOp st d fd).2.2 = .ok () ∧
      diskRead (SetMetaOp st d fd).1 "CURRENT" = some (fsGenName fd ++ "\n") := by
  have hred : SetMetaOp st d fd = ((setMeta d fd).1, (setMeta d fd).2, .ok ()) := by
    unfold SetMetaOp
    rw [if_neg (by simp [hfd]), if_neg (by simp [hro]), if_neg (by omega)]
  rw [hred]
  exact ⟨rfl, setMeta_current d fd⟩

theorem c10_setMeta_any_kind_witness :
    (SetMetaOp (initState false) [] ⟨TypeJournal, 5⟩).2.2 = .ok () ∧
      diskRead (SetMetaOp (initState false) [] ⟨TypeJournal, 5⟩).1 "CURRENT"
        = some "000005.log\n" := by
  have h := c10_setMeta_any_kind (initState false) [] ⟨TypeJournal, 5⟩
    (by decide) rfl (by decide)
  exact ⟨h.1, by rw [h.2]; rfl⟩

/-- C1: the selection rule of `GetMeta` on a live handle: when the pending
scan returned an identifier, it is selected iff the canonical scan returned
nothing or the pending number strictly exceeds the canonical number,
otherwise the canonical identifier is selected and returned; when the
pending scan returned no identifier, the canonical one (if any) is
returned. -/
theorem c1_getMeta_selection (st : FState) (d : Disk) (h : 0 ≤ st.openCnt) :
    (∀ p c, (getMetaScan d).1 = .ok p → (getMetaScan d).2.1 = .ok c →
      (GetMetaOp st d).2 = .ok (if c.2.num < p.2.num then p.2 else c.2)) ∧
    (∀ p e, (getMetaScan d).1 = .ok p → (getMetaScan d).2.1 = .error e →
      (GetMetaOp st d).2 = .ok p.2) ∧
    (∀ e c, (getMetaScan d).1 = .error e → (getMetaScan d).2.1 = .ok c →
      (GetMetaOp st d).2 = .ok c.2) := by
  refine ⟨?_, ?_, ?_⟩
  · intro p c hp hc
    unfold GetMetaOp
    rw [if_neg (by omega), hp, hc]
    unfold getMetaPost getMetaWinner
    by_cases hlt : c.2.num < p.2.num
    · simp only [if_pos hlt]
    · simp only [if_neg hlt]
  · intro p e hp hc
    unfold GetMetaOp
    rw [if_neg (by omega), hp, hc]
    rfl
  · intro e c hp hc
    unfold GetMetaOp
    rw [if_neg (by omega), hp, hc]
    rfl

theorem c1_getMeta_selection_witness :
    (GetMetaOp (initState false)
        [("CURRENT", "MANIFEST-000005\n"), ("MANIFEST-000005", ""),
         ("MANIFEST-000007", ""), ("CURRENT.7", "MANIFEST-000007\n")]).2
      = .ok ⟨TypeManifest, 7⟩ := by
  have h := (c1_getMeta_selection (initState false)
    [("CURRENT", "MANIFEST-000005\n"), ("MANIFEST-000005", ""),
     ("MANIFEST-000007", ""), ("CURRENT.7", "MANIFEST-000007\n")] (by decide)).1
    ("CURRENT.7", ⟨TypeManifest, 7⟩) ("CURRENT", ⟨TypeManifest, 5⟩) rfl rfl
  rw [if_pos (by decide)] at h
  exact h

/-- C7: when `GetMeta` on a live handle finds no winning identifier, it
returns a corruption error if any scanned candidate was corrupted — a
corrupted pending scan taking precedence over the canonical scan's error —
and otherwise the canonical scan's not-exist error. -/
theorem c7_getMeta_failure (st : FState) (d : Disk) (h : 0 ≤ st.openCnt) :
    ∀ pe ce, (getMetaScan d).1 = .error pe → (getMetaScan d).2.1 = .error ce →
      (GetMetaOp st d).2 = .error (if pe = .corrupted then .corrupted else terrToGErr ce) := by
  intro pe ce hp hc
  unfold GetMetaOp
  rw [if_neg (by omega), hp, hc]
  cases pe
  · rw [if_neg (by decide)]
    rfl
  · rw [if_pos rfl]
    rfl

theorem c7_getMeta_failure_witness :
    (GetMetaOp (initState false) [("CURRENT.5", "garbage")]).2 = .error .corrupted := by
  have h := c7_getMeta_failure (initState false) [("CURRENT.5", "garbage")]
    (by decide) .corrupted .notExist rfl rfl
  rw [if_pos rfl] at h
  exact h

/-! ## Lemmas: read-only operations do not touch the directory -/

theorem getMetaRepair_readonly (st : FState) (d : Disk) (w : String × FileDesc)
    (pn : List String) (h : st.readOnly = true) : getMetaRepair st d w pn = d := by
  unfold getMetaRepair
  rw [h]
  rfl

theorem getMetaPost_fst_readonly (st : FState) (d : Disk)
    (pend cano : Except TErr (String × FileDesc)) (pn : List String)
    (h : st.readOnly = true) : (getMetaPost st d pend cano pn).1 = d := by
  unfold getMetaPost
  cases hw : getMetaWinner pend cano with
  | none => rfl
  | some w =>
    show (getMetaRepair st d w pn, Except.ok w.2).1 = d
    exact getMetaRepair_readonly st d w pn h

theorem getMetaOp_fst_readonly (st : FState) (d : Disk) (h : st.readOnly = true) :
    (GetMetaOp st d).1 = d := by
  unfold GetMetaOp
  by_cases hc : st.openCnt < 0
  · rw [if_pos hc]
  · rw [if_neg hc]
    exact getMetaPost_fst_readonly st d _ _ _ h

theorem diskRead_write_other (d : Disk) (m n c : String) (h : n ≠ m) :
    diskRead (diskWrite d m c) n = diskRead d n := by
  unfold diskWrite diskRead eraseName
  rw [List.find?_cons_of_neg _ (by simp only [decide_eq_true_eq]; exact fun e => h e.symm)]
  induction d with
  | nil => rfl
  | cons e d ih =>
    by_cases he : e.1 = m
    · rw [List.filter_cons_of_neg (by simp [he])]
      rw [List.find?_cons_of_neg _ (by simp only [decide_eq_true_eq]; exact fun hx => h (hx ▸ he))]
      exact ih
    · rw [List.filter_cons_of_pos (by simp [he])]
      by_cases hp : e.1 = n
      · rw [List.find?_cons_of_pos _ (by simp [hp]), List.find?_cons_of_pos _ (by simp [hp])]
      · rw [List.find?_cons_of_neg _ (by simp [hp]), List.find?_cons_of_neg _ (by simp [hp])]
        exact ih

/-- The operations the read-only-safety claim ranges over: `GetMeta`, `List`,
`Open`, `Lock` (and `Unlock`), `Log`, `Close` — plus `fileWrap.Close`. -/
def readOnlyClaimOp : SOp → Bool
  | .sLock => true
  | .sUnlock => true
  | .sLog _ => true
  | .sGetMeta => true
  | .sList _ => true
  | .sOpen _ => true
  | .sClose => true
  | .sWrapClose _ => true
  | _ => false

theorem stepOp_readonly_preserves (sd : FState × Disk) (op : SOp)
    (h : sd.1.readOnly = true) (hop : readOnlyClaimOp op = true) :
    (stepOp sd op).2 = sd.2 ∧ (stepOp sd op).1.readOnly = true := by
  cases op with
  | sLock =>
    refine ⟨rfl, ?_⟩
    show (LockOp sd.1).1.readOnly = true
    unfold LockOp
    repeat' split
    all_goals exact h
  | sUnlock => exact ⟨rfl, h⟩
  | sLog line =>
    refine ⟨?_, h⟩
    show LogOp sd.1 sd.2 line = sd.2
    unfold LogOp
    rw [if_pos h]
  | sGetMeta => exact ⟨getMetaOp_fst_readonly sd.1 sd.2 h, h⟩
  | sList ft => exact ⟨rfl, h⟩
  | sOpen fd =>
    refine ⟨rfl, ?_⟩
    show (OpenOp sd.1 sd.2 fd).1.readOnly = true
    unfold OpenOp
    repeat' split
    all_goals exact h
  | sClose =>
    refine ⟨rfl, ?_⟩
    show (CloseOp sd.1).1.readOnly = true
    unfold CloseOp
    repeat' split
    all_goals exact h
  | sWrapClose i =>
    refine ⟨rfl, ?_⟩
    show (WrapCloseOp sd.1 i).1.readOnly = true
    unfold WrapCloseOp
    repeat' split
    all_goals exact h
  | sSetMeta fd => exact absurd hop (by simp [readOnlyClaimOp])
  | sCreate fd => exact absurd hop (by simp [readOnlyClaimOp])
  | sRemove fd => exact absurd hop (by simp [readOnlyClaimOp])
  | sRename o n => exact absurd hop (by simp [readOnlyClaimOp])

theorem runOps_readonly_preserves (st : FState) (d : Disk) (ops : List SOp)
    (h : st.readOnly = true) (hops : ∀ op ∈ ops, readOnlyClaimOp op = true) :
    (runOps st d ops).2 = d ∧ (runOps st d ops).1.readOnly = true := by
  induction ops generalizing st d with
  | nil => exact ⟨rfl, h⟩
  | cons op ops ih =>
    have hstep := stepOp_readonly_preserves (st, d) op h (hops op (by simp))
    have hrest := ih (stepOp (st, d) op).1 (stepOp (st, d) op).2 hstep.2
      (fun o ho => hops o (by simp [ho]))
    refine ⟨?_, ?_⟩
    · show (List.foldl stepOp (stepOp (st, d) op) ops).2 = d
      exact hrest.1.trans hstep.1
    · show (List.foldl stepOp (stepOp (st, d) op) ops).1.readOnly = true
      exact hrest.2

/-- C8 counterexample: a read-only open of a directory without a `LOCK` file
succeeds and CREATES the (empty) `LOCK` file — `newFileLock` retries with
`O_CREATE` regardless of the read-only flag — so "no file is created" fails
for "the open itself". -/
theorem c8_counterexample_readonly_open_creates_lock :
    diskStat ([] : Disk) "LOCK" = false ∧
      (openFileStorage true []).1 = [("LOCK", "")] :=
  ⟨rfl, rfl⟩

/-- C8 (amended): after a successful read-only open, every sequence of the
listed operations (`Lock`/`Unlock`, `Log`, `GetMeta`, `List`, `Open`,
`Close`, `fileWrap.Close`) leaves the directory contents unchanged, byte for
byte; the read-only open itself modifies or removes no existing file either,
but creates an empty `LOCK` file when none exists (and is the identity on
the directory when `LOCK` already exists). -/
theorem c8_readonly_safety (st : FState) (d : Disk) (ops : List SOp)
    (h : st.readOnly = true) (hops : ∀ op ∈ ops, readOnlyClaimOp op = true) :
    (runOps st d ops).2 = d ∧
      (∀ n c, diskRead d n = some c → diskRead (openFileStorage true d).1 n = some c) ∧
      (diskStat d "LOCK" = true → (openFileStorage true d).1 = d) := by
  refine ⟨(runOps_readonly_preserves st d ops h hops).1, ?_, ?_⟩
  · intro n c hn
    unfold openFileStorage
    by_cases hl : diskStat d "LOCK"
    · rw [if_pos hl]
      exact hn
    · rw [if_neg hl]
      show diskRead (diskWrite d "LOCK" "") n = some c
      rw [diskRead_write_other d "LOCK" n "" ?_]
      · exact hn
      · rintro rfl
        unfold diskStat at hl
        rw [hn] at hl
        exact hl (by simp)
  · intro hl
    unfold openFileStorage
    rw [if_pos hl]
    rfl

theorem c8_readonly_safety_witness :
    (runOps (initState true) [("LOCK", "x"), ("000001.log", "y")] [.sGetMeta, .sList TypeAll]).2
        = [("LOCK", "x"), ("000001.log", "y")] ∧
      (openFileStorage true [("LOCK", "x"), ("000001.log", "y")]).1
        = [("LOCK", "x"), ("000001.log", "y")] := by
  have h := c8_readonly_safety (initState true) [("LOCK", "x"), ("000001.log", "y")]
    [.sGetMeta, .sList TypeAll] rfl (by intro op hop; fin_cases hop <;> rfl)
  exact ⟨h.1, h.2.2 rfl⟩

/-! ## Lemmas: the open-handle count -/

theorem countLive_append_false (l : List Bool) :
    ((l ++ [false]).filter (fun b => !b)).length = (l.filter (fun b => !b)).length + 1 := by
  simp [List.filter_append]

theorem countLive_set_true (l : List Bool) (i : Nat) (h : l.get? i = some false) :
    ((l.set i true).filter (fun b => !b)).length + 1 = (l.filter (fun b => !b)).length := by
  induction l generalizing i with
  | nil => cases h
  | cons b l ih =>
    cases i with
    | zero =>
      injection h with hb
      subst hb
      simp [List.set]
    | succ i =>
      show (((b :: l.set i true)).filter (fun b => !b)).length + 1 = _
      rw [List.filter_cons, List.filter_cons]
      have hih := ih i h
      cases hb : (!b)
      · simp only [Bool.false_eq_true, if_false]
        exact hih
      · simp only [if_true, List.length_cons]
        omega

/-- The reachability invariant of the open count: either the handle is
closed (negative count) or the count equals the number of live file
handles. -/
def cntInv (st : FState) : Prop :=
  st.openCnt < 0 ∨ st.openCnt = (liveWraps st : Int)

/-- Minting a new live file handle raises the live-handle count by one. -/
theorem cntInv_incr {st : FState} (h : st.openCnt = (liveWraps st : Int)) :
    cntInv { st with openCnt := st.openCnt + 1, wraps := st.wraps ++ [false] } := by
  right
  show st.openCnt + 1 = (((st.wraps ++ [false]).filter (fun b => !b)).length : Int)
  rw [countLive_append_false]
  unfold liveWraps at h
  omega

/-- Closing a live file handle lowers the live-handle count by one. -/
theorem cntInv_decr {st : FState} {i : Nat} (hget : st.wraps.get? i = some false)
    (h : st.openCnt = (liveWraps st : Int)) :
    cntInv { st with openCnt := st.openCnt - 1, wraps := st.wraps.set i true } := by
  right
  show st.openCnt - 1 = (((st.wraps.set i true).filter (fun b => !b)).length : Int)
  have hset := countLive_set_true st.wraps i hget
  unfold liveWraps at h
  omega

theorem stepOp_cntInv (sd : FState × Disk) (op : SOp) (h : cntInv sd.1) :
    cntInv (stepOp sd op).1 := by
  cases op with
  | sLock =>
    show cntInv (LockOp sd.1).1
    unfold LockOp
    repeat' split
    all_goals exact h
  | sUnlock => exact h
  | sLog line => exact h
  | sSetMeta fd => exact h
  | sGetMeta => exact h
  | sList ft => exact h
  | sRemove fd => exact h
  | sRename o n => exact h
  | sOpen fd =>
    show cntInv (OpenOp sd.1 sd.2 fd).1
    unfold OpenOp
    split
    · exact h
    · split
      · exact h
      · have heq : sd.1.openCnt = (liveWraps sd.1 : Int) := by
          rcases h with h | h
          · omega
          · exact h
        split
        · exact cntInv_incr heq
        · split
          · exact cntInv_incr heq
          · exact Or.inr heq
  | sCreate fd =>
    show cntInv (CreateOp sd.1 sd.2 fd).1
    unfold CreateOp
    split
    · exact h
    · split
      · exact h
      · split
        · exact h
        · have heq : sd.1.openCnt = (liveWraps sd.1 : Int) := by
            rcases h with h | h
            · omega
            · exact h
          exact cntInv_incr heq
  | sClose =>
    show cntInv (CloseOp sd.1).1
    unfold CloseOp
    split
    · exact h
    · left
      show (-1 : Int) < 0
      omega
  | sWrapClose i =>
    show cntInv (WrapCloseOp sd.1 i).1
    unfold WrapCloseOp
    split
    · exact h
    · rcases h with h | h
      · left
        show sd.1.openCnt - 1 < 0
        omega
      · exact cntInv_decr (by assumption) h
    · exact h

theorem runOps_cntInv (st : FState) (d : Disk) (ops : List SOp) (h : cntInv st) :
    cntInv (runOps st d ops).1 := by
  induction ops generalizing st d with
  | nil => exact h
  | cons op ops ih =>
    show cntInv (List.foldl stepOp (stepOp (st, d) op) ops).1
    exact ih (stepOp (st, d) op).1 (stepOp (st, d) op).2 (stepOp_cntInv (st, d) op h)

/-- C9 counterexample: open a file handle, close the directory handle (count
becomes the sentinel `-1`), then close the file handle: `fileWrap.Close`
checks only its own flag, succeeds, and decrements the count to `-2` —
a decrement below zero. -/
theorem c9_counterexample_count_below_zero :
    (WrapCloseOp (runOps (initState false) [("000001.log", "x")]
        [.sOpen ⟨TypeJournal, 1⟩, .sClose]).1 0).2 = .ok () ∧
      (WrapCloseOp (runOps (initState false) [("000001.log", "x")]
        [.sOpen ⟨TypeJournal, 1⟩, .sClose]).1 0).1.openCnt = -2 :=
  ⟨rfl, rfl⟩

/-- C9 (amended): in every state reachable by a sequence of operations from a
fresh handle, a non-negative open count equals the number of live file
handles (so while the directory handle is live, closes of live file handles
never take the count below zero), and once the count is negative (the handle
is closed) `Open` and `Create` change nothing — the count is never
incremented after close.  However, a `fileWrap.Close` performed after the
directory close does decrement the `-1` sentinel further (see the
counterexample). -/
theorem c9_open_count (ro : Bool) (d : Disk) (ops : List SOp) :
    (0 ≤ (runOps (initState ro) d ops).1.openCnt →
      (runOps (initState ro) d ops).1.openCnt
        = (liveWraps (runOps (initState ro) d ops).1 : Int)) ∧
    (∀ st2 d2 fd, st2.openCnt < 0 →
      (OpenOp st2 d2 fd).1 = st2 ∧ (CreateOp st2 d2 fd).1 = st2) := by
  constructor
  · intro hge
    rcases runOps_cntInv (initState ro) d ops (Or.inr rfl) with hlt | heq
    · omega
    · exact heq
  · intro st2 d2 fd hlt
    constructor
    · unfold OpenOp
      by_cases hfd : ¬FileDescOk fd
      · rw [if_pos hfd]
      · rw [if_neg hfd, if_pos hlt]
    · unfold CreateOp
      by_cases hfd : ¬FileDescOk fd
      · rw [if_pos hfd]
      · rw [if_neg hfd]
        by_cases hro2 : st2.readOnly
        · rw [if_pos hro2]
        · rw [if_neg hro2, if_pos hlt]

/-! ## Lemmas: characterizing the parser on white-space-free names (for C6) -/

theorem skipSpaceNoNL_nospace {cs : List Char} (h : ∀ c ∈ cs, isGoSpace c = false) :
    skipSpaceNoNL cs = some cs := by
  cases cs with
  | nil => rfl
  | cons c rest => exact skipSpaceNoNL_cons (h c (by simp))

theorem scanSign_neg (t : List Char) : scanSign ('-' :: t) = (true, t) := by
  simp [scanSign]

theorem scanSign_pos (t : List Char) : scanSign ('+' :: t) = (false, t) := by
  simp [scanSign]

/-- Evaluate `scanIntTok` once white space is known to be absent. -/
theorem scanIntTok_eval (cs : List Char) (hskip : skipSpaceNoNL cs = some cs) :
    scanIntTok cs =
      (if ((scanSign cs).2.takeWhile isDigitChar).isEmpty then none
       else if (if (scanSign cs).1 then -1 else 1) *
             (charsVal ((scanSign cs).2.takeWhile isDigitChar) : Int) < -(2 ^ 63) ∨
           2 ^ 63 - 1 < (if (scanSign cs).1 then -1 else 1) *
             (charsVal ((scanSign cs).2.takeWhile isDigitChar) : Int) then none
       else some ((if (scanSign cs).1 then -1 else 1) *
           (charsVal ((scanSign cs).2.takeWhile isDigitChar) : Int),
         (scanSign cs).2.dropWhile isDigitChar)) := by
  unfold scanIntTok
  rw [hskip]

theorem parseIntCore_eq_some {neg : Bool} {ds : List Char} {n : Int} :
    parseIntCore neg ds = some n ↔
      ds ≠ [] ∧ (∀ c ∈ ds, isDigitChar c = true) ∧
        n = (if neg then -1 else 1) * (charsVal ds : Int) ∧
        -(2 ^ 63) ≤ n ∧ n ≤ 2 ^ 63 - 1 := by
  unfold parseIntCore
  constructor
  · intro h
    by_cases h1 : ds.isEmpty
    · rw [if_pos h1] at h
      cases h
    · rw [if_neg h1] at h
      by_cases h2 : ds.all isDigitChar
      · rw [if_pos h2] at h
        by_cases h3 : ((if neg then -1 else 1) * (charsVal ds : Int) < -(2 ^ 63) ∨
            2 ^ 63 - 1 < (if neg then -1 else 1) * (charsVal ds : Int))
        · rw [if_pos h3] at h
          cases h
        · rw [if_neg h3] at h
          injection h with hv
          obtain ⟨h3a, h3b⟩ := not_or.mp h3
          subst hv
          exact ⟨by simpa using h1, by simpa [List.all_eq_true] using h2, rfl,
            not_lt.mp h3a, not_lt.mp h3b⟩
      · rw [if_neg h2] at h
        cases h
  · rintro ⟨h1, h2, rfl, h4, h5⟩
    rw [if_neg (by simpa using h1), if_pos (by simpa [List.all_eq_true] using h2),
      if_neg (not_or.mpr ⟨not_lt.mpr h4, not_lt.mpr h5⟩)]

theorem dropWhile_head_false {p : Char → Bool} {l : List Char} {x : Char} {xs : List Char}
    (h : l.dropWhile p = x :: xs) : p x = false := by
  induction l with
  | nil => cases h
  | cons c t ih =>
    rw [List.dropWhile_cons] at h
    by_cases hc : p c
    · rw [if_pos hc] at h
      exact ih h
    · rw [if_neg hc] at h
      injection h with h1 _
      subst h1
      simpa using hc

/-- Evaluate `%d` given the outcome of the sign step and a digit run followed
by a non-digit remainder. -/
theorem scanIntTok_from_parts (cs t rest : List Char) (neg : Bool)
    (hskip : skipSpaceNoNL cs = some cs)
    (hsgn : scanSign cs = (neg, t ++ rest))
    (ht : t ≠ []) (hall : ∀ c ∈ t, isDigitChar c = true)
    (hr : ∀ x xs, rest = x :: xs → isDigitChar x = false)
    (hlo : -(2 ^ 63) ≤ (if neg then -1 else 1) * (charsVal t : Int))
    (hhi : (if neg then -1 else 1) * (charsVal t : Int) ≤ 2 ^ 63 - 1) :
    scanIntTok cs = some ((if neg then -1 else 1) * (charsVal t : Int), rest) := by
  rw [scanIntTok_eval cs hskip, hsgn]
  have htk := takeWhile_append_stop (p := isDigitChar) hall hr
  obtain ⟨c2, t2, hct⟩ := List.exists_cons_of_ne_nil ht
  show (if (List.takeWhile isDigitChar (t ++ rest)).isEmpty then none
    else if (if neg then -1 else 1) * (charsVal (List.takeWhile isDigitChar (t ++ rest)) : Int)
          < -(2 ^ 63) ∨
        2 ^ 63 - 1 < (if neg then -1 else 1) *
          (charsVal (List.takeWhile isDigitChar (t ++ rest)) : Int) then none
    else some ((if neg then -1 else 1) * (charsVal (List.takeWhile isDigitChar (t ++ rest)) : Int),
      List.dropWhile isDigitChar (t ++ rest)))
    = some ((if neg then -1 else 1) * (charsVal t : Int), rest)
  rw [htk.1, htk.2, if_neg (by rw [hct]; simp),
    if_neg (not_or.mpr ⟨not_lt.mpr hlo, not_lt.mpr hhi⟩)]

/-- Composition: a `ParseInt`-valid token followed by a non-digit remainder
is scanned by `%d` exactly up to the remainder. -/
theorem scanIntTok_of_parseIntGo (numcs rest : List Char) (n : Int)
    (hp : parseIntGo (String.mk numcs) = some n)
    (hr : ∀ x xs, rest = x :: xs → isDigitChar x = false) :
    scanIntTok (numcs ++ rest) = some (n, rest) := by
  cases numcs with
  | nil => simp [parseIntGo, scanSign, parseIntCore] at hp
  | cons c t =>
    by_cases hm : c = '-'
    · subst hm
      have hp2 : parseIntCore true t = some n := hp
      obtain ⟨ht, hall, hv, hlo, hhi⟩ := parseIntCore_eq_some.mp hp2
      subst hv
      exact scanIntTok_from_parts (('-' :: t) ++ rest) t rest true
        (skipSpaceNoNL_cons (by decide)) (scanSign_neg (t ++ rest)) ht hall hr hlo hhi
    · by_cases hpl : c = '+'
      · subst hpl
        have hp2 : parseIntCore false t = some n := hp
        obtain ⟨ht, hall, hv, hlo, hhi⟩ := parseIntCore_eq_some.mp hp2
        subst hv
        exact scanIntTok_from_parts (('+' :: t) ++ rest) t rest false
          (skipSpaceNoNL_cons (by decide)) (scanSign_pos (t ++ rest)) ht hall hr hlo hhi
      · have hp2 : parseIntCore false (c :: t) = some n := by
          have hgo : parseIntGo (String.mk (c :: t))
              = parseIntCore (scanSign (c :: t)).1 (scanSign (c :: t)).2 := rfl
          rw [hgo, scanSign_nosign hm hpl] at hp
          exact hp
        obtain ⟨ht, hall, hv, hlo, hhi⟩ := parseIntCore_eq_some.mp hp2
        subst hv
        have hcd : isDigitChar c = true := hall c (by simp)
        exact scanIntTok_from_parts ((c :: t) ++ rest) (c :: t) rest false
          (skipSpaceNoNL_cons (isGoSpace_false_of_digit hcd))
          (scanSign_nosign hm hpl) ht hall hr hlo hhi

/-- Invert `%d` given the outcome of the sign step. -/
theorem scanIntTok_decomp_parts (cs cs2 : List Char) (neg : Bool)
    (hskip : skipSpaceNoNL cs = some cs) (hsgn : scanSign cs = (neg, cs2))
    {n : Int} {rest : List Char} (h : scanIntTok cs = some (n, rest)) :
    cs2.takeWhile isDigitChar ≠ [] ∧
      rest = cs2.dropWhile isDigitChar ∧
      n = (if neg then -1 else 1) * (charsVal (cs2.takeWhile isDigitChar) : Int) ∧
      -(2 ^ 63) ≤ n ∧ n ≤ 2 ^ 63 - 1 := by
  rw [scanIntTok_eval cs hskip, hsgn] at h
  have h2 : (if (cs2.takeWhile isDigitChar).isEmpty then none
      else if (if neg then -1 else 1) * (charsVal (cs2.takeWhile isDigitChar) : Int)
            < -(2 ^ 63) ∨
          2 ^ 63 - 1 < (if neg then -1 else 1) *
            (charsVal (cs2.takeWhile isDigitChar) : Int) then none
      else some ((if neg then -1 else 1) * (charsVal (cs2.takeWhile isDigitChar) : Int),
        cs2.dropWhile isDigitChar)) = some (n, rest) := h
  by_cases h1 : (cs2.takeWhile isDigitChar).isEmpty
  · rw [if_pos h1] at h2
    cases h2
  · rw [if_neg h1] at h2
    by_cases h3 : ((if neg then -1 else 1) * (charsVal (cs2.takeWhile isDigitChar) : Int)
          < -(2 ^ 63) ∨
        2 ^ 63 - 1 < (if neg then -1 else 1) * (charsVal (cs2.takeWhile isDigitChar) : Int))
    · rw [if_pos h3] at h2
      cases h2
    · rw [if_neg h3] at h2
      injection h2 with hpair
      obtain ⟨h3a, h3b⟩ := not_or.mp h3
      have hv := congrArg Prod.fst hpair
      have hrest := congrArg Prod.snd hpair
      simp only at hv hrest
      refine ⟨by simpa using h1, hrest.symm, hv.symm, ?_, ?_⟩
      · rw [← hv]
        exact not_lt.mp h3a
      · rw [← hv]
        exact not_lt.mp h3b

/-- Decomposition: a successful `%d` scan of a white-space-free input splits
it into a `ParseInt`-valid token and a remainder with no leading digit. -/
theorem scanIntTok_decomp (cs : List Char) (hns : ∀ c ∈ cs, isGoSpace c = false)
    {n : Int} {rest : List Char} (h : scanIntTok cs = some (n, rest)) :
    ∃ numcs, cs = numcs ++ rest ∧ parseIntGo (String.mk numcs) = some n ∧
      (∀ x xs, rest = x :: xs → isDigitChar x = false) := by
  have hskip := skipSpaceNoNL_nospace hns
  cases cs with
  | nil => simp [scanIntTok, skipSpaceNoNL, scanSign] at h
  | cons c t =>
    by_cases hm : c = '-'
    · subst hm
      obtain ⟨h1, hrest, hv, hlo, hhi⟩ :=
        scanIntTok_decomp_parts ('-' :: t) t true hskip (scanSign_neg t) h
      refine ⟨'-' :: t.takeWhile isDigitChar, ?_, ?_, ?_⟩
      · rw [hrest, show ('-' :: t.takeWhile isDigitChar) ++ t.dropWhile isDigitChar
          = '-' :: (t.takeWhile isDigitChar ++ t.dropWhile isDigitChar) from rfl,
          List.takeWhile_append_dropWhile]
      · have hgo : parseIntGo (String.mk ('-' :: t.takeWhile isDigitChar))
            = parseIntCore true (t.takeWhile isDigitChar) := rfl
        rw [hgo]
        exact parseIntCore_eq_some.mpr ⟨h1, fun c hc => List.mem_takeWhile_imp hc, hv, hlo, hhi⟩
      · intro x xs hx
        exact dropWhile_head_false (l := t) (hrest ▸ hx)
    · by_cases hpl : c = '+'
      · subst hpl
        obtain ⟨h1, hrest, hv, hlo, hhi⟩ :=
          scanIntTok_decomp_parts ('+' :: t) t false hskip (scanSign_pos t) h
        refine ⟨'+' :: t.takeWhile isDigitChar, ?_, ?_, ?_⟩
        · rw [hrest, show ('+' :: t.takeWhile isDigitChar) ++ t.dropWhile isDigitChar
            = '+' :: (t.takeWhile isDigitChar ++ t.dropWhile isDigitChar) from rfl,
            List.takeWhile_append_dropWhile]
        · have hgo : parseIntGo (String.mk ('+' :: t.takeWhile isDigitChar))
              = parseIntCore false (t.takeWhile isDigitChar) := rfl
          rw [hgo]
          exact parseIntCore_eq_some.mpr ⟨h1, fun c hc => List.mem_takeWhile_imp hc, hv, hlo, hhi⟩
        · intro x xs hx
          exact dropWhile_head_false (l := t) (hrest ▸ hx)
      · obtain ⟨h1, hrest, hv, hlo, hhi⟩ :=
          scanIntTok_decomp_parts (c :: t) (c :: t) false hskip (scanSign_nosign hm hpl) h
        refine ⟨(c :: t).takeWhile isDigitChar, ?_, ?_, ?_⟩
        · rw [hrest, List.takeWhile_append_dropWhile]
        · obtain ⟨c2, t2, hct⟩ := List.exists_cons_of_ne_nil h1
          have hc2d : isDigitChar c2 = true :=
            List.mem_takeWhile_imp (l := c :: t) (hct ▸ List.mem_cons_self c2 t2)
          have hsgn2 := ne_sign_of_digit hc2d
          have hgo : parseIntGo (String.mk ((c :: t).takeWhile isDigitChar))
              = parseIntCore (scanSign ((c :: t).takeWhile isDigitChar)).1
                (scanSign ((c :: t).takeWhile isDigitChar)).2 := rfl
          rw [hgo, hct, scanSign_nosign hsgn2.1 hsgn2.2, ← hct]
          exact parseIntCore_eq_some.mpr ⟨h1, fun x hx => List.mem_takeWhile_imp hx, hv, hlo, hhi⟩
        · intro x xs hx
          exact dropWhile_head_false (l := c :: t) (hrest ▸ hx)

theorem expectChar_some {c : Char} {cs r : List Char} :
    expectChar c cs = some r ↔ cs = c :: r := by
  cases cs with
  | nil => simp [expectChar]
  | cons x rest =>
    unfold expectChar
    by_cases hx : x = c
    · subst hx
      simp
    · simp [hx]

theorem expectPrefixChars_some : ∀ {p cs r : List Char},
    expectPrefixChars p cs = some r → cs = p ++ r := by
  intro p
  induction p with
  | nil =>
    intro cs r h
    simpa [expectPrefixChars] using h
  | cons x ps ih =>
    intro cs r h
    cases cs with
    | nil => cases h
    | cons c cs2 =>
      unfold expectPrefixChars at h
      by_cases hc : c = x
      · subst hc
        rw [if_pos rfl] at h
        rw [ih h]
        rfl
      · rw [if_neg hc] at h
        cases h

theorem scanStrTok_spacefree (cs : List Char) (h : ∀ c ∈ cs, isGoSpace c = false) :
    scanStrTok cs = if cs.isEmpty then none else some (String.mk cs, []) := by
  cases cs with
  | nil => rfl
  | cons c rest =>
    rw [if_neg (by simp)]
    exact scanStrTok_token _ (by simp) h

/-- Characterize `Sscanf(name, "%d.%s")` success on white-space-free names. -/
theorem sscanfNumDotStr_spacefree_iff (s : String)
    (hns : ∀ c ∈ s.toList, isGoSpace c = false) (n : Int) (tok : String) :
    sscanfNumDotStr s = some (n, tok) ↔
      ∃ numcs tl, s.toList = numcs ++ '.' :: tl ∧
        parseIntGo (String.mk numcs) = some n ∧ tok = String.mk tl ∧ tl ≠ [] := by
  constructor
  · intro h
    unfold sscanfNumDotStr at h
    cases hsc : scanIntTok s.toList with
    | none =>
      rw [hsc] at h
      cases h
    | some pr =>
      obtain ⟨n1, r1⟩ := pr
      rw [hsc] at h
      have h2 : (match expectChar '.' r1 with
        | none => none
        | some r2 =>
          match scanStrTok r2 with
          | none => none
          | some (tok2, _) => some (n1, tok2)) = some (n, tok) := h
      cases hec : expectChar '.' r1 with
      | none =>
        rw [hec] at h2
        cases h2
      | some r2 =>
        rw [hec] at h2
        have h3 : (match scanStrTok r2 with
          | none => none
          | some (tok2, _) => some (n1, tok2)) = some (n, tok) := h2
        have hr1 : r1 = '.' :: r2 := expectChar_some.mp hec
        obtain ⟨numcs, hsplit, hpi, _⟩ := scanIntTok_decomp s.toList hns hsc
        have hr2ns : ∀ c ∈ r2, isGoSpace c = false := by
          intro c hc
          apply hns
          rw [hsplit, hr1]
          exact List.mem_append.mpr (Or.inr (by simp [hc]))
        cases hst : scanStrTok r2 with
        | none =>
          rw [hst] at h3
          cases h3
        | some pr2 =>
          obtain ⟨tok2, rest2⟩ := pr2
          rw [hst] at h3
          injection h3 with h4
          have hn1 : n1 = n := congrArg Prod.fst h4
          have htok2 : tok2 = tok := congrArg Prod.snd h4
          rw [scanStrTok_spacefree r2 hr2ns] at hst
          by_cases hr2e : r2.isEmpty
          · rw [if_pos hr2e] at hst
            cases hst
          · rw [if_neg hr2e] at hst
            injection hst with h5
            have htokmk : String.mk r2 = tok2 := congrArg Prod.fst h5
            refine ⟨numcs, r2, ?_, ?_, ?_, by simpa using hr2e⟩
            · rw [hsplit, hr1]
            · rw [← hn1]
              exact hpi
            · rw [← htok2, ← htokmk]
  · rintro ⟨numcs, tl, hsplit, hpi, htok, htl⟩
    have hsc : scanIntTok s.toList = some (n, '.' :: tl) := by
      rw [hsplit]
      exact scanIntTok_of_parseIntGo numcs ('.' :: tl) n hpi
        (by intro x xs hx; injection hx with hx1 _; subst hx1; rfl)
    have htlns : ∀ c ∈ tl, isGoSpace c = false := by
      intro c hc
      apply hns
      rw [hsplit]
      exact List.mem_append.mpr (Or.inr (by simp [hc]))
    unfold sscanfNumDotStr
    rw [hsc]
    show (match expectChar '.' ('.' :: tl) with
      | none => none
      | some r2 =>
        match scanStrTok r2 with
        | none => none
        | some (tok2, _) => some (n, tok2)) = some (n, tok)
    rw [show expectChar '.' ('.' :: tl) = some tl from by simp [expectChar]]
    show (match scanStrTok tl with
      | none => none
      | some (tok2, _) => some (n, tok2)) = some (n, tok)
    rw [scanStrTok_spacefree tl htlns, if_neg (by simpa using htl), htok]

/-- Characterize `Sscanf(name, "MANIFEST-%d%s")` returning exactly one item,
on white-space-free names. -/
theorem sscanfManifest_spacefree_iff (s : String)
    (hns : ∀ c ∈ s.toList, isGoSpace c = false) (n : Int) :
    sscanfManifest s = some n ↔
      ∃ numcs, s.toList = "MANIFEST-".toList ++ numcs ∧
        parseIntGo (String.mk numcs) = some n := by
  constructor
  · intro h
    unfold sscanfManifest at h
    cases hpre : expectPrefixChars "MANIFEST-".toList s.toList with
    | none =>
      rw [hpre] at h
      cases h
    | some r0 =>
      rw [hpre] at h
      have h2 : (match scanIntTok r0 with
        | none => none
        | some (n1, r1) =>
          match scanStrTok r1 with
          | some _ => none
          | none => some n1) = some n := h
      have hsp := expectPrefixChars_some hpre
      have hr0ns : ∀ c ∈ r0, isGoSpace c = false := by
        intro c hc
        apply hns
        rw [hsp]
        exact List.mem_append.mpr (Or.inr hc)
      cases hsc : scanIntTok r0 with
      | none =>
        rw [hsc] at h2
        cases h2
      | some pr =>
        obtain ⟨n1, r1⟩ := pr
        rw [hsc] at h2
        have h3 : (match scanStrTok r1 with
          | some _ => none
          | none => some n1) = some n := h2
        obtain ⟨numcs, hsplit, hpi, _⟩ := scanIntTok_decomp r0 hr0ns hsc
        have hr1ns : ∀ c ∈ r1, isGoSpace c = false := by
          intro c hc
          apply hr0ns
          rw [hsplit]
          exact List.mem_append.mpr (Or.inr hc)
        cases hst : scanStrTok r1 with
        | some pr2 =>
          rw [hst] at h3
          cases h3
        | none =>
          rw [hst] at h3
          injection h3 with hn1
          rw [scanStrTok_spacefree r1 hr1ns] at hst
          by_cases hr1e : r1.isEmpty
          · refine ⟨numcs, ?_, ?_⟩
            · rw [hsp, hsplit, show r1 = [] from by simpa using hr1e, List.append_nil]
            · rw [← hn1]
              exact hpi
          · rw [if_neg hr1e] at hst
            cases hst
  · rintro ⟨numcs, hsplit, hpi⟩
    unfold sscanfManifest
    rw [hsplit, expectPrefixChars_append]
    show (match scanIntTok numcs with
      | none => none
      | some (n1, r1) =>
        match scanStrTok r1 with
        | some _ => none
        | none => some n1) = some n
    rw [show scanIntTok numcs = some (n, []) from by
      have h2 := scanIntTok_of_parseIntGo numcs [] n hpi (by intro x xs hx; cases hx)
      rwa [List.append_nil] at h2]
    rfl

/-- The acceptance set asserted by the claim, as written: `<digits>.<suffix>`
with suffix in {log, ldb, sst, tmp} and the digits fitting a signed 64-bit
integer, or `MANIFEST-<digits>` (kind Manifest); everything else rejected. -/
def claimDotForm (s : String) : Option FileDesc :=
  if (s.toList.takeWhile isDigitChar).isEmpty then none
  else if (charsVal (s.toList.takeWhile isDigitChar) : Int) ≤ 2 ^ 63 - 1 then
    if s.toList.dropWhile isDigitChar = '.' :: "log".toList then
      some ⟨TypeJournal, (charsVal (s.toList.takeWhile isDigitChar) : Int)⟩
    else if s.toList.dropWhile isDigitChar = '.' :: "ldb".toList ∨
        s.toList.dropWhile isDigitChar = '.' :: "sst".toList then
      some ⟨TypeTable, (charsVal (s.toList.takeWhile isDigitChar) : Int)⟩
    else if s.toList.dropWhile isDigitChar = '.' :: "tmp".toList then
      some ⟨TypeTemp, (charsVal (s.toList.takeWhile isDigitChar) : Int)⟩
    else none
  else none

def claimManifestForm (s : String) : Option FileDesc :=
  match expectPrefixChars "MANIFEST-".toList s.toList with
  | none => none
  | some rest =>
    if rest.isEmpty then none
    else if rest.all isDigitChar then
      if (charsVal rest : Int) ≤ 2 ^ 63 - 1 then
        some ⟨TypeManifest, (charsVal rest : Int)⟩
      else none
    else none

def claimForm (s : String) : Option FileDesc :=
  match claimDotForm s with
  | some fd => some fd
  | none => claimManifestForm s

/-- The acceptance set the parser actually has on white-space-free names for
the dot format: an optionally signed `ParseInt`-valid number, a dot, and one
of the four suffixes. -/
def ExtDotForm (s : String) (fd : FileDesc) : Prop :=
  ∃ numcs tl, s.toList = numcs ++ '.' :: tl ∧
    parseIntGo (String.mk numcs) = some fd.num ∧
    ((tl = "log".toList ∧ fd.ftype = TypeJournal) ∨
     ((tl = "ldb".toList ∨ tl = "sst".toList) ∧ fd.ftype = TypeTable) ∨
     (tl = "tmp".toList ∧ fd.ftype = TypeTemp))

/-- Likewise for the `MANIFEST-` format: the literal prefix followed by an
optionally signed `ParseInt`-valid number consuming the rest of the name. -/
def ExtManifestForm (s : String) (fd : FileDesc) : Prop :=
  ∃ numcs, s.toList = "MANIFEST-".toList ++ numcs ∧
    parseIntGo (String.mk numcs) = some fd.num ∧ fd.ftype = TypeManifest

/-- C6 counterexample: `+000005.log` is not of the claimed form
`<digits>.<suffix>` (and not `MANIFEST-<digits>`), yet the parser accepts it
as (Journal, 5), because `Sscanf`'s `%d` verb accepts an optional sign. -/
theorem c6_counterexample_signed_name :
    claimForm "+000005.log" = none ∧
      fsParseName "+000005.log" = (⟨TypeJournal, 5⟩, true) :=
  ⟨rfl, rfl⟩

theorem fsParseName_of_sscanf_some {s : String} {n : Int} {tail : String}
    (h : sscanfNumDotStr s = some (n, tail)) :
    fsParseName s = (if tail = "log" then ((⟨TypeJournal, n⟩ : FileDesc), true)
      else if tail = "ldb" ∨ tail = "sst" then ((⟨TypeTable, n⟩ : FileDesc), true)
      else if tail = "tmp" then ((⟨TypeTemp, n⟩ : FileDesc), true)
      else ((⟨0, n⟩ : FileDesc), false)) := by
  unfold fsParseName
  rw [h]

theorem fsParseName_manifest_case {s : String} {n : Int}
    (h1 : sscanfNumDotStr s = none) (h2 : sscanfManifest s = some n) :
    fsParseName s = (⟨TypeManifest, n⟩, true) := by
  unfold fsParseName
  rw [h1, h2]

/-- C6 (amended): on names free of white-space characters the parser accepts
exactly: an optionally signed decimal fitting a signed 64-bit integer,
followed by `.` and one of `log`, `ldb`, `sst`, `tmp` (kinds Journal, Table,
Table, Temp respectively), and `MANIFEST-` followed by such a number (kind
Manifest); names containing white space can be accepted beyond these forms
under `Sscanf`'s tolerances — e.g. `000005.log extra` is accepted as
(Journal, 5) because `%s` stops at the space and trailing input is ignored. -/
theorem c6_parse_characterization (s : String) (fd : FileDesc)
    (hns : ∀ c ∈ s.toList, isGoSpace c = false) :
    (fsParseName s = (fd, true) ↔ ExtDotForm s fd ∨ ExtManifestForm s fd) ∧
      fsParseName "000005.log extra" = (⟨TypeJournal, 5⟩, true) := by
  refine ⟨⟨?_, ?_⟩, rfl⟩
  · intro h
    unfold fsParseName at h
    cases hsc : sscanfNumDotStr s with
    | some pr =>
      obtain ⟨n, tail⟩ := pr
      rw [hsc] at h
      have h0 : (if tail = "log" then ((⟨TypeJournal, n⟩ : FileDesc), true)
          else if tail = "ldb" ∨ tail = "sst" then ((⟨TypeTable, n⟩ : FileDesc), true)
          else if tail = "tmp" then ((⟨TypeTemp, n⟩ : FileDesc), true)
          else ((⟨0, n⟩ : FileDesc), false)) = (fd, true) := h
      obtain ⟨numcs, tl, hsplit, hpi, htok, htl⟩ :=
        (sscanfNumDotStr_spacefree_iff s hns n tail).mp hsc
      by_cases h1 : tail = "log"
      · rw [if_pos h1] at h0
        injection h0 with hfd _
        left
        refine ⟨numcs, tl, hsplit, by rw [← hfd]; exact hpi, Or.inl ⟨?_, by rw [← hfd]⟩⟩
        exact congrArg String.toList (htok.symm.trans h1)
      · by_cases h2 : tail = "ldb" ∨ tail = "sst"
        · rw [if_neg h1, if_pos h2] at h0
          injection h0 with hfd _
          left
          refine ⟨numcs, tl, hsplit, by rw [← hfd]; exact hpi,
            Or.inr (Or.inl ⟨?_, by rw [← hfd]⟩)⟩
          rcases h2 with h2 | h2
          · exact Or.inl (congrArg String.toList (htok.symm.trans h2))
          · exact Or.inr (congrArg String.toList (htok.symm.trans h2))
        · by_cases h3 : tail = "tmp"
          · rw [if_neg h1, if_neg h2, if_pos h3] at h0
            injection h0 with hfd _
            left
            refine ⟨numcs, tl, hsplit, by rw [← hfd]; exact hpi,
              Or.inr (Or.inr ⟨?_, by rw [← hfd]⟩)⟩
            exact congrArg String.toList (htok.symm.trans h3)
          · rw [if_neg h1, if_neg h2, if_neg h3] at h0
            injection h0 with _ hb
            cases hb
    | none =>
      rw [hsc] at h
      cases hsm : sscanfManifest s with
      | some n =>
        rw [hsm] at h
        have h0 : ((⟨TypeManifest, n⟩ : FileDesc), true) = (fd, true) := h
        injection h0 with hfd _
        right
        obtain ⟨numcs, hsplit, hpi⟩ := (sscanfManifest_spacefree_iff s hns n).mp hsm
        exact ⟨numcs, hsplit, by rw [← hfd]; exact hpi, by rw [← hfd]⟩
      | none =>
        rw [hsm] at h
        have h0 : ((⟨0, 0⟩ : FileDesc), false) = (fd, true) := h
        injection h0 with _ hb
        cases hb
  · intro h
    obtain ⟨ft, nn⟩ := fd
    rcases h with ⟨numcs, tl, hsplit, hpi, hsuf⟩ | ⟨numcs, hsplit, hpi, hman⟩
    · have htl : tl ≠ [] := by
        rcases hsuf with ⟨h1, _⟩ | ⟨h1 | h1, _⟩ | ⟨h1, _⟩ <;> subst h1 <;> simp
      have hsc : sscanfNumDotStr s = some (nn, String.mk tl) :=
        (sscanfNumDotStr_spacefree_iff s hns nn (String.mk tl)).mpr
          ⟨numcs, tl, hsplit, hpi, rfl, htl⟩
      rw [fsParseName_of_sscanf_some hsc]
      rcases hsuf with ⟨h1, h2⟩ | ⟨h1 | h1, h2⟩ | ⟨h1, h2⟩ <;> subst h1 <;>
        (have h2b : ft = _ := h2; subst h2b)
      · rw [if_pos (by decide)]
      · rw [if_neg (by decide), if_pos (by decide)]
      · rw [if_neg (by decide), if_pos (by decide)]
      · rw [if_neg (by decide), if_neg (by decide), if_pos (by decide)]
    · have h2b : ft = TypeManifest := hman
      subst h2b
      have hM : scanIntTok s.toList = none := by
        rw [hsplit]
        exact scanIntTok_nondigit_head (by decide) (by decide) (by decide) (by decide)
      have hsm : sscanfManifest s = some nn :=
        (sscanfManifest_spacefree_iff s hns nn).mpr ⟨numcs, hsplit, hpi⟩
      exact fsParseName_manifest_case (sscanfNumDotStr_none_of_scanInt hM) hsm

theorem c6_parse_characterization_witness :
    fsParseName "000005.log" = (⟨TypeJournal, 5⟩, true) := by
  have h := (c6_parse_characterization "000005.log" ⟨TypeJournal, 5⟩ (by decide)).1
  exact h.mpr (Or.inl ⟨"000005".toList, "log".toList, rfl, rfl, Or.inl ⟨rfl, rfl⟩⟩)

theorem c9_open_count_witness :
    (runOps (initState false) [("000001.log", "x")] [.sOpen ⟨TypeJournal, 1⟩]).1.openCnt
        = (liveWraps (runOps (initState false) [("000001.log", "x")]
            [.sOpen ⟨TypeJournal, 1⟩]).1 : Int) ∧
      (OpenOp { readOnly := false, openCnt := -1, slock := false, wraps := [] }
          [] ⟨TypeJournal, 1⟩).1
        = { readOnly := false, openCnt := -1, slock := false, wraps := [] } := by
  have h := c9_open_count false [("000001.log", "x")] [.sOpen ⟨TypeJournal, 1⟩]
  exact ⟨h.1 (by decide),
    (h.2 { readOnly := false, openCnt := -1, slock := false, wraps := [] } []
      ⟨TypeJournal, 1⟩ (by decide)).1⟩

end GoStorage
